import Mathlib

/-!
Verification of the turntable gesture state machine in `script.js`.

The mutable fields of the `AudiobookDJ` class are collected into a `DJState`
structure, and the event handlers `startDrag`, `drag` and `stopDrag` become
state-transition functions.  JavaScript numbers are idealised as exact
rationals, and `Math.PI` is the (rational) value of the IEEE double that
JavaScript uses.  A seek performed by assigning `audio.currentTime` is both
recorded in the state and reported as an emitted `Cmd`, so that theorems can
talk about the transport commands a gesture produces.
-/

set_option maxHeartbeats 1000000

namespace AudiobookDJ

/-- The rational value of the double `Math.PI`. -/
def Math.PI : ℚ := 3.141592653589793

/-- `this.angleDeadzoneRad = 0.05`. -/
def angleDeadzoneRad : ℚ := 0.05

/-- `this.maxPlaybackRate = 5.0`. -/
def maxPlaybackRate : ℚ := 5.0

/-- `this.cwRatePerRad = 0.15`. -/
def cwRatePerRad : ℚ := 0.15

/-- `this.cwScrubEnterVel = 22.0`. -/
def cwScrubEnterVel : ℚ := 22.0

/-- `this.cwScrubExitVel = 10.0`. -/
def cwScrubExitVel : ℚ := 10.0

/-- `this.cwScrubExitHoldMs = 300`. -/
def cwScrubExitHoldMs : ℚ := 300

/-- `this.cwSeekAngleStepDeg = 45`. -/
def cwSeekAngleStepDeg : ℚ := 45

/-- `this.cwSeekStepSeconds = 1`. -/
def cwSeekStepSeconds : ℚ := 1

/-- `this.switchThresholdDeg = 20`. -/
def switchThresholdDeg : ℚ := 20

/-- `this.seekAngleStepDeg = 15`. -/
def seekAngleStepDeg : ℚ := 15

/-- `this.seekStepSeconds = 5`. -/
def seekStepSeconds : ℚ := 5

/-- `x * (180 / Math.PI)`, the radian-to-degree conversion used throughout
`drag`. -/
def radToDeg (x : ℚ) : ℚ := x * (180 / Math.PI)

/-- The mutable state of the `AudiobookDJ` object (the fields assigned in the
constructor), together with the relevant state of the `audio` element. -/
structure DJState where
  isDragging : Bool
  isPlaying : Bool
  /-- whether `this.audio.src` is set (a loaded file). -/
  audioSrc : Bool
  currentRotation : ℚ
  lastAngle : ℚ
  playbackRate : ℚ
  direction : ℤ
  cwPlaybackRate : ℚ
  isCWScrub : Bool
  cwScrubBelowExitSince : ℚ
  cwAngleAccumulatorDeg : ℚ
  directionLock : ℤ
  switchAccumNegDeg : ℚ
  ccwAngleAccumulatorDeg : ℚ
  lastDragTime : ℚ
  dragDuration : ℚ
  /-- `this.audio.currentTime`. -/
  audioCurrentTime : ℚ
  /-- `this.audio.duration`; `none` models `NaN` (metadata not loaded). -/
  audioDuration : Option ℚ
  /-- `this.audio.playbackRate`. -/
  audioPlaybackRate : ℚ
  deriving DecidableEq

/-- The field values established by the constructor of `AudiobookDJ`
(before any audio is loaded). -/
def initialState : DJState where
  isDragging := false
  isPlaying := false
  audioSrc := false
  currentRotation := 0
  lastAngle := 0
  playbackRate := 1
  direction := 1
  cwPlaybackRate := 1
  isCWScrub := false
  cwScrubBelowExitSince := 0
  cwAngleAccumulatorDeg := 0
  directionLock := 0
  switchAccumNegDeg := 0
  ccwAngleAccumulatorDeg := 0
  lastDragTime := 0
  dragDuration := 0
  audioCurrentTime := 0
  audioDuration := none
  audioPlaybackRate := 1

/-- A transport command: an assignment to `audio.currentTime`, recorded with
the number of seconds jumped and the assigned target time. -/
inductive Cmd where
  | seekFwd (seconds target : ℚ)
  | seekBack (seconds target : ℚ)
  deriving DecidableEq

/-- The target time of a seek command. -/
def Cmd.target : Cmd → ℚ
  | seekFwd _ t => t
  | seekBack _ t => t

/-- Seconds jumped backward by a command (0 for a forward seek). -/
def Cmd.backSeconds : Cmd → ℚ
  | seekFwd _ _ => 0
  | seekBack sec _ => sec

/-- Total seconds of backward seeking in a command list. -/
def backSecondsTotal (l : List Cmd) : ℚ := (l.map Cmd.backSeconds).sum

/-- Lines 153-156: wrap-corrected delta between consecutive angles.  The two
corrections are applied sequentially, exactly as in the source. -/
def computeDelta (prevAngle newAngle : ℚ) : ℚ :=
  if newAngle - prevAngle > Math.PI then
    (if newAngle - prevAngle - 2 * Math.PI < -Math.PI then
      newAngle - prevAngle - 2 * Math.PI + 2 * Math.PI
     else newAngle - prevAngle - 2 * Math.PI)
  else
    (if newAngle - prevAngle < -Math.PI then newAngle - prevAngle + 2 * Math.PI
     else newAngle - prevAngle)

/-- Modelled from the spec wording of `computeDelta` (section 4.2): "if the
naive difference exceeds π, subtract 2π; if it is less than −π, add 2π" —
the two corrections read as alternatives on the naive difference.  Used to
compare the source's sequential corrections against the spec's words. -/
def wrapCorrectSpec (prevAngle newAngle : ℚ) : ℚ :=
  if newAngle - prevAngle > Math.PI then newAngle - prevAngle - 2 * Math.PI
  else if newAngle - prevAngle < -Math.PI then newAngle - prevAngle + 2 * Math.PI
  else newAngle - prevAngle

/-- `this.audio.duration || Infinity` followed by `Math.min` against the
seek target: an unknown (`none`) or zero duration is falsy, so no upper
clamp is applied. -/
def fwdTarget : Option ℚ → ℚ → ℚ
  | none, t => t
  | some d, t => if d = 0 then t else min d t

/-- Lines 184-204: the enter/exit hysteresis for clockwise fast-scrub.
`angVel` is the angular velocity of the current sample, `now` its time. -/
def cwScrubHysteresis (s : DJState) (angVel now : ℚ) : DJState :=
  if s.isCWScrub then
    if angVel ≤ cwScrubExitVel then
      if now - (if s.cwScrubBelowExitSince = 0 then now else s.cwScrubBelowExitSince) ≥
          cwScrubExitHoldMs then
        { s with
            isCWScrub := false, cwAngleAccumulatorDeg := 0, cwScrubBelowExitSince := 0 }
      else
        { s with
            cwScrubBelowExitSince :=
              if s.cwScrubBelowExitSince = 0 then now else s.cwScrubBelowExitSince }
    else { s with cwScrubBelowExitSince := 0 }
  else if angVel ≥ cwScrubEnterVel then
    { s with
        isCWScrub := true, cwAngleAccumulatorDeg := 0, cwScrubBelowExitSince := 0 }
  else s

/-- Lines 206-219: clockwise fast-scrub body.  `dDeg` is the degree
magnitude of the current delta. -/
def cwSeekBody (s : DJState) (dDeg : ℚ) : DJState × Option Cmd :=
  if s.cwAngleAccumulatorDeg + dDeg ≥ cwSeekAngleStepDeg then
    ({ s with
        playbackRate := 1, audioPlaybackRate := 1,
        cwAngleAccumulatorDeg := s.cwAngleAccumulatorDeg + dDeg -
          (⌊(s.cwAngleAccumulatorDeg + dDeg) / cwSeekAngleStepDeg⌋ : ℚ) * cwSeekAngleStepDeg,
        audioCurrentTime := fwdTarget s.audioDuration
          (s.audioCurrentTime +
            (⌊(s.cwAngleAccumulatorDeg + dDeg) / cwSeekAngleStepDeg⌋ : ℚ) * cwSeekStepSeconds) },
     some (Cmd.seekFwd
        ((⌊(s.cwAngleAccumulatorDeg + dDeg) / cwSeekAngleStepDeg⌋ : ℚ) * cwSeekStepSeconds)
        (fwdTarget s.audioDuration
          (s.audioCurrentTime +
            (⌊(s.cwAngleAccumulatorDeg + dDeg) / cwSeekAngleStepDeg⌋ : ℚ) * cwSeekStepSeconds))))
  else
    ({ s with
        playbackRate := 1, audioPlaybackRate := 1,
        cwAngleAccumulatorDeg := s.cwAngleAccumulatorDeg + dDeg }, none)

/-- Lines 220-229: cumulative clockwise speed adjustment.  `absDelta` is
`Math.abs(deltaAngle)` in radians. -/
def cwSpeedBody (s : DJState) (absDelta : ℚ) : DJState :=
  { s with
      cwPlaybackRate := min maxPlaybackRate (s.cwPlaybackRate + absDelta * cwRatePerRad),
      playbackRate := min maxPlaybackRate (s.cwPlaybackRate + absDelta * cwRatePerRad),
      audioPlaybackRate := min maxPlaybackRate (s.cwPlaybackRate + absDelta * cwRatePerRad) }

/-- Lines 176-230: the clockwise arm of `drag`. -/
def cwBranch (s : DJState) (deltaAngle angVel now : ℚ) : DJState × Option Cmd :=
  if (cwScrubHysteresis
        { s with directionLock := 1, switchAccumNegDeg := 0, ccwAngleAccumulatorDeg := 0 }
        angVel now).isCWScrub then
    cwSeekBody
      (cwScrubHysteresis
        { s with directionLock := 1, switchAccumNegDeg := 0, ccwAngleAccumulatorDeg := 0 }
        angVel now)
      (radToDeg |deltaAngle|)
  else
    (cwSpeedBody
      (cwScrubHysteresis
        { s with directionLock := 1, switchAccumNegDeg := 0, ccwAngleAccumulatorDeg := 0 }
        angVel now)
      |deltaAngle|, none)

/-- Lines 257-270: counter-clockwise stepped backward seek.  `dDeg` is the
degree magnitude of the current delta. -/
def ccwSeekBody (s : DJState) (dDeg : ℚ) : DJState × Option Cmd :=
  if s.ccwAngleAccumulatorDeg + dDeg ≥ seekAngleStepDeg then
    ({ s with
        playbackRate := 1, audioPlaybackRate := 1,
        ccwAngleAccumulatorDeg := s.ccwAngleAccumulatorDeg + dDeg -
          (⌊(s.ccwAngleAccumulatorDeg + dDeg) / seekAngleStepDeg⌋ : ℚ) * seekAngleStepDeg,
        audioCurrentTime := max 0 (s.audioCurrentTime -
          (⌊(s.ccwAngleAccumulatorDeg + dDeg) / seekAngleStepDeg⌋ : ℚ) * seekStepSeconds) },
     some (Cmd.seekBack
        ((⌊(s.ccwAngleAccumulatorDeg + dDeg) / seekAngleStepDeg⌋ : ℚ) * seekStepSeconds)
        (max 0 (s.audioCurrentTime -
          (⌊(s.ccwAngleAccumulatorDeg + dDeg) / seekAngleStepDeg⌋ : ℚ) * seekStepSeconds))))
  else
    ({ s with
        playbackRate := 1, audioPlaybackRate := 1,
        ccwAngleAccumulatorDeg := s.ccwAngleAccumulatorDeg + dDeg }, none)

/-- Lines 231-271: the counter-clockwise arm of `drag`, including the
direction-switch hysteresis while locked clockwise with raised speed. -/
def ccwBranch (s : DJState) (deltaAngle : ℚ) : DJState × Option Cmd :=
  if s.directionLock = 1 ∧ 1 < s.cwPlaybackRate then
    if s.switchAccumNegDeg + radToDeg |deltaAngle| < switchThresholdDeg then
      ({ s with switchAccumNegDeg := s.switchAccumNegDeg + radToDeg |deltaAngle| }, none)
    else
      ccwSeekBody
        { s with
            switchAccumNegDeg := s.switchAccumNegDeg + radToDeg |deltaAngle|,
            directionLock := -1, cwPlaybackRate := 1, isCWScrub := false,
            cwAngleAccumulatorDeg := 0, cwScrubBelowExitSince := 0 }
        (radToDeg |deltaAngle|)
  else ccwSeekBody s (radToDeg |deltaAngle|)

/-- Lines 273-275: the timestamp bookkeeping shared by every non-discarded
sample (the hysteresis early return performs the same two assignments). -/
def stamp (p : DJState × Option Cmd) (a now : ℚ) : DJState × Option Cmd :=
  ({ p.1 with lastDragTime := now, lastAngle := a }, p.2)

/-- Lines 144-276 of `drag`, phrased on the already-computed wrap-corrected
delta: `deltaAngle` is the delta, `a` the new raw angle, `now` the sample
time. -/
def dragStep (s : DJState) (deltaAngle a now : ℚ) : DJState × Option Cmd :=
  if s.isDragging ∧ s.audioSrc then
    if |deltaAngle| < angleDeadzoneRad then ({ s with lastAngle := a }, none)
    else
      stamp
        (if 0 < deltaAngle then
          cwBranch { s with currentRotation := s.currentRotation + radToDeg deltaAngle }
            deltaAngle (|deltaAngle| / max 0.0001 ((now - s.lastDragTime) / 1000)) now
         else
          ccwBranch { s with currentRotation := s.currentRotation + radToDeg deltaAngle }
            deltaAngle)
        a now
  else (s, none)

/-- The full `drag` handler: the delta is computed from the stored
`lastAngle` and the sample's raw angle. -/
def drag (s : DJState) (a now : ℚ) : DJState × Option Cmd :=
  dragStep s (computeDelta s.lastAngle a) a now

/-- Processing a list of samples `(delta, angle, time)` with `dragStep`,
collecting the emitted commands in order. -/
def dragRun : DJState → List (ℚ × ℚ × ℚ) → DJState × List Cmd
  | s, [] => (s, [])
  | s, x :: rest =>
    ((dragRun (dragStep s x.1 x.2.1 x.2.2).1 rest).1,
      (dragStep s x.1 x.2.1 x.2.2).2.toList ++ (dragRun (dragStep s x.1 x.2.1 x.2.2).1 rest).2)

/-- Sum of the degree magnitudes of the deltas in a sample list. -/
def degAbsSum (l : List (ℚ × ℚ × ℚ)) : ℚ := (l.map (fun x => radToDeg |x.1|)).sum

/-- All samples are accepted (non-deadzone) counter-clockwise deltas. -/
def CCWAccepted (l : List (ℚ × ℚ × ℚ)) : Prop :=
  ∀ x ∈ l, x.1 < 0 ∧ angleDeadzoneRad ≤ |x.1|

/-- Lines 128-142: `startDrag`, with the initial angle already computed. -/
def startDrag (s : DJState) (a now : ℚ) : DJState :=
  { s with
      isDragging := true, lastDragTime := now, dragDuration := 0,
      ccwAngleAccumulatorDeg := 0, lastAngle := a }

/-- Lines 278-296: `stopDrag`. -/
def stopDrag (s : DJState) : DJState :=
  { s with
      isDragging := false, dragDuration := 0, ccwAngleAccumulatorDeg := 0,
      playbackRate := 1, audioPlaybackRate := 1,
      cwPlaybackRate := 1, directionLock := 0, switchAccumNegDeg := 0,
      isCWScrub := false, cwAngleAccumulatorDeg := 0 }

/-- C8: after `stopDrag`, the playback rate (both the object's field and the
audio element's) is 1.0, the direction lock is cleared, the clockwise speed
multiplier and all three step/switch accumulators are back at their
defaults, and the seek position is untouched. -/
theorem c8_drag_end_reset (s : DJState) :
    (stopDrag s).playbackRate = 1 ∧
    (stopDrag s).audioPlaybackRate = 1 ∧
    (stopDrag s).directionLock = 0 ∧
    (stopDrag s).cwPlaybackRate = 1 ∧
    (stopDrag s).cwAngleAccumulatorDeg = 0 ∧
    (stopDrag s).ccwAngleAccumulatorDeg = 0 ∧
    (stopDrag s).switchAccumNegDeg = 0 ∧
    (stopDrag s).audioCurrentTime = s.audioCurrentTime := by
  simp [stopDrag]

/-- A state in the middle of a clockwise session, used to exhibit what
`startDrag` does not reset. -/
def exC9 : DJState :=
  { initialState with
      audioSrc := true, directionLock := 1,
      switchAccumNegDeg := 5, cwAngleAccumulatorDeg := 30, cwPlaybackRate := 3 }

/-- C9 counterexample: `startDrag` neither clears `directionLock` nor zeroes
the opposite-direction switch accumulator or the clockwise step accumulator,
so the claim that drag-start zeroes all accumulators and clears the lock is
false on this state. -/
theorem c9_counterexample :
    (startDrag exC9 0.3 1000).directionLock = 1 ∧ (1 : ℤ) ≠ 0 ∧
    (startDrag exC9 0.3 1000).switchAccumNegDeg = 5 ∧ (5 : ℚ) ≠ 0 ∧
    (startDrag exC9 0.3 1000).cwAngleAccumulatorDeg = 30 ∧ (30 : ℚ) ≠ 0 := by
  refine ⟨?_, by decide, ?_, by norm_num, ?_, by norm_num⟩ <;>
    simp [startDrag, exC9, initialState]

/-- C9 (amended): `startDrag` captures the initial angle and sample time,
zeroes only the counter-clockwise step accumulator (and the drag-duration
bookkeeping), and leaves the clockwise step accumulator, the
opposite-direction switch accumulator, the clockwise speed multiplier and
`directionLock` unchanged. -/
theorem c9_drag_start (s : DJState) (a now : ℚ) :
    startDrag s a now =
      { s with
          isDragging := true, lastDragTime := now, dragDuration := 0,
          ccwAngleAccumulatorDeg := 0, lastAngle := a } := by
  rfl

/-- C5 counterexample: at `prev = π/2`, `new = −π/2` (both inside the
claimed domain `(−π, π]`) the computed delta is exactly `−π`, which is not
in the claimed codomain `(−π, π]`. -/
theorem c5_counterexample :
    (-Math.PI < Math.PI / 2 ∧ Math.PI / 2 ≤ Math.PI) ∧
    (-Math.PI < -(Math.PI / 2) ∧ -(Math.PI / 2) ≤ Math.PI) ∧
    computeDelta (Math.PI / 2) (-(Math.PI / 2)) = -Math.PI ∧
    ¬(-Math.PI < computeDelta (Math.PI / 2) (-(Math.PI / 2))) := by
  norm_num [computeDelta, Math.PI]

/-- C5 (amended): for angle pairs in `(−π, π]`, the computed delta equals
the naive difference corrected by ±2π exactly as the spec words it, and it
lies in the closed interval `[−π, π]` (the endpoint `−π` is attained, so
the claimed half-open interval `(−π, π]` must be enlarged to `[−π, π]`). -/
theorem c5_wrap_correctness (p n : ℚ)
    (hp1 : -Math.PI < p) (hp2 : p ≤ Math.PI)
    (hn1 : -Math.PI < n) (hn2 : n ≤ Math.PI) :
    computeDelta p n = wrapCorrectSpec p n ∧
    -Math.PI ≤ computeDelta p n ∧ computeDelta p n ≤ Math.PI := by
  have hpi : (0:ℚ) < Math.PI := by norm_num [Math.PI]
  unfold computeDelta wrapCorrectSpec
  split_ifs with h1 h2 h3 <;> refine ⟨by linarith, by linarith, by linarith⟩

/-- C5 witness: the spec example `prev = 3.13`, `new = −3.13` is in the
domain and satisfies the amended conclusion. -/
theorem c5_wrap_correctness_witness :
    (-Math.PI < (3.13:ℚ) ∧ (3.13:ℚ) ≤ Math.PI ∧
     -Math.PI < (-3.13:ℚ) ∧ (-3.13:ℚ) ≤ Math.PI) ∧
    (computeDelta 3.13 (-3.13) = wrapCorrectSpec 3.13 (-3.13) ∧
     -Math.PI ≤ computeDelta 3.13 (-3.13) ∧ computeDelta 3.13 (-3.13) ≤ Math.PI) := by
  refine ⟨⟨?_, ?_, ?_, ?_⟩, c5_wrap_correctness 3.13 (-3.13) ?_ ?_ ?_ ?_⟩ <;>
    norm_num [Math.PI]

/-- A mid-drag state (audio loaded, drag active) with a stale
`lastDragTime`, used for the deadzone claims. -/
def exC6 : DJState :=
  { initialState with isDragging := true, audioSrc := true, lastAngle := 0.2 }

/-- C6 counterexample: a deadzone sample at time 500 leaves `lastDragTime`
at its old value 0 — the last-sample timestamp does not advance to the
discarded sample's time, contradicting the claim. -/
theorem c6_counterexample :
    |(0.01 : ℚ)| < angleDeadzoneRad ∧
    (dragStep exC6 0.01 0.3 500).1.lastDragTime = 0 ∧ (0 : ℚ) ≠ 500 := by
  norm_num [dragStep, exC6, initialState, angleDeadzoneRad, abs_lt]

/-- C6 (amended): a sample whose wrap-corrected delta is inside the deadzone
changes nothing and emits nothing, except that `lastAngle` advances to the
sample's angle; in particular `lastDragTime` is NOT advanced (the sample's
timestamp is discarded along with the delta). -/
theorem c6_deadzone (s : DJState) (d a now : ℚ)
    (hdrag : s.isDragging = true) (hsrc : s.audioSrc = true)
    (hdz : |d| < angleDeadzoneRad) :
    dragStep s d a now = ({ s with lastAngle := a }, none) := by
  simp [dragStep, hdrag, hsrc, hdz]

/-- C6 witness: a concrete deadzone sample on a concrete mid-drag state. -/
theorem c6_deadzone_witness :
    exC6.isDragging = true ∧ exC6.audioSrc = true ∧ |(0.01 : ℚ)| < angleDeadzoneRad ∧
    dragStep exC6 0.01 0.3 500 = ({ exC6 with lastAngle := 0.3 }, none) := by
  refine ⟨?_, ?_, ?_, c6_deadzone exC6 0.01 0.3 500 ?_ ?_ ?_⟩ <;>
    norm_num [exC6, initialState, angleDeadzoneRad, abs_lt]

/-- The degree conversion is positive on positive input. -/
lemma radToDeg_pos {x : ℚ} (hx : 0 < x) : 0 < radToDeg x := by
  unfold radToDeg
  have : (0:ℚ) < 180 / Math.PI := by norm_num [Math.PI]
  positivity

/-- The degree conversion is nonnegative on nonnegative input. -/
lemma radToDeg_nonneg {x : ℚ} (hx : 0 ≤ x) : 0 ≤ radToDeg x := by
  unfold radToDeg
  have : (0:ℚ) ≤ 180 / Math.PI := by norm_num [Math.PI]
  positivity

/-- Remainder after subtracting whole floor-multiples of a positive step. -/
lemma floor_remainder_bounds (x step : ℚ) (hstep : 0 < step) :
    0 ≤ x - (⌊x / step⌋ : ℚ) * step ∧ x - (⌊x / step⌋ : ℚ) * step < step := by
  have h : x - (⌊x / step⌋ : ℚ) * step = step * Int.fract (x / step) := by
    rw [Int.fract]
    field_simp
    ring
  constructor
  · rw [h]
    exact mul_nonneg hstep.le (Int.fract_nonneg _)
  · rw [h]
    calc step * Int.fract (x / step) < step * 1 :=
          mul_lt_mul_of_pos_left (Int.fract_lt_one _) hstep
      _ = step := mul_one step

/-- A quotient floor is at least one once the step is reached. -/
lemma one_le_floor_div (x step : ℚ) (hstep : 0 < step) (hx : step ≤ x) :
    1 ≤ ⌊x / step⌋ := by
  rw [Int.le_floor]
  push_cast
  rw [le_div_iff₀ hstep]
  linarith

/-- Unfolding of `dragStep` on an accepted counter-clockwise sample. -/
lemma dragStep_ccw (s : DJState) (d a now : ℚ)
    (hdrag : s.isDragging = true) (hsrc : s.audioSrc = true)
    (hneg : d < 0) (hdz : angleDeadzoneRad ≤ |d|) :
    dragStep s d a now =
      stamp (ccwBranch { s with currentRotation := s.currentRotation + radToDeg d } d)
        a now := by
  simp only [dragStep, hdrag, hsrc]
  rw [if_pos ⟨trivial, trivial⟩, if_neg (not_lt.mpr hdz), if_neg (by linarith)]

/-- Unfolding of `dragStep` on an accepted clockwise sample. -/
lemma dragStep_cw (s : DJState) (d a now : ℚ)
    (hdrag : s.isDragging = true) (hsrc : s.audioSrc = true)
    (hpos : 0 < d) (hdz : angleDeadzoneRad ≤ |d|) :
    dragStep s d a now =
      stamp (cwBranch { s with currentRotation := s.currentRotation + radToDeg d }
        d (|d| / max 0.0001 ((now - s.lastDragTime) / 1000)) now) a now := by
  simp only [dragStep, hdrag, hsrc]
  rw [if_pos ⟨trivial, trivial⟩, if_neg (not_lt.mpr hdz), if_pos hpos]

/-- Fields of the state that `ccwSeekBody` never touches. -/
lemma ccwSeekBody_fields (s : DJState) (dDeg : ℚ) :
    (ccwSeekBody s dDeg).1.isDragging = s.isDragging ∧
    (ccwSeekBody s dDeg).1.audioSrc = s.audioSrc ∧
    (ccwSeekBody s dDeg).1.directionLock = s.directionLock ∧
    (ccwSeekBody s dDeg).1.cwPlaybackRate = s.cwPlaybackRate ∧
    (ccwSeekBody s dDeg).1.switchAccumNegDeg = s.switchAccumNegDeg ∧
    (ccwSeekBody s dDeg).1.isCWScrub = s.isCWScrub ∧
    (ccwSeekBody s dDeg).1.cwAngleAccumulatorDeg = s.cwAngleAccumulatorDeg ∧
    (ccwSeekBody s dDeg).1.cwScrubBelowExitSince = s.cwScrubBelowExitSince ∧
    (ccwSeekBody s dDeg).1.lastDragTime = s.lastDragTime ∧
    (ccwSeekBody s dDeg).1.audioDuration = s.audioDuration := by
  unfold ccwSeekBody
  split_ifs <;> simp

/-- Case analysis on whether the backward step seeker fires. -/
lemma ccwSeekBody_cases (s : DJState) (dDeg : ℚ) :
    (s.ccwAngleAccumulatorDeg + dDeg < seekAngleStepDeg ∧
      (ccwSeekBody s dDeg).1.ccwAngleAccumulatorDeg = s.ccwAngleAccumulatorDeg + dDeg ∧
      (ccwSeekBody s dDeg).2 = none) ∨
    (seekAngleStepDeg ≤ s.ccwAngleAccumulatorDeg + dDeg ∧
      (ccwSeekBody s dDeg).1.ccwAngleAccumulatorDeg =
        s.ccwAngleAccumulatorDeg + dDeg -
          (⌊(s.ccwAngleAccumulatorDeg + dDeg) / seekAngleStepDeg⌋ : ℚ) * seekAngleStepDeg ∧
      (ccwSeekBody s dDeg).2 =
        some (Cmd.seekBack
          ((⌊(s.ccwAngleAccumulatorDeg + dDeg) / seekAngleStepDeg⌋ : ℚ) * seekStepSeconds)
          (max 0 (s.audioCurrentTime -
            (⌊(s.ccwAngleAccumulatorDeg + dDeg) / seekAngleStepDeg⌋ : ℚ) * seekStepSeconds)))) := by
  unfold ccwSeekBody
  split_ifs with h
  · exact Or.inr ⟨h, by simp, rfl⟩
  · exact Or.inl ⟨lt_of_not_le h, by simp, rfl⟩

/-- A clockwise-locked session whose speed was never raised, for C10. -/
def exC10 : DJState :=
  { initialState with
      isDragging := true, audioSrc := true, directionLock := 1,
      cwPlaybackRate := 1, audioCurrentTime := 100 }

/-- C10: while `directionLock = Clockwise` but the clockwise speed
multiplier is exactly 1.0, an accepted counter-clockwise delta bypasses the
20° switch threshold entirely: the switch accumulator is untouched,
backward step seeking happens on that very sample (the counter-clockwise
accumulator becomes positive or a backward seek is emitted at once), and
`directionLock` stays Clockwise. -/
theorem c10_hysteresis_bypass (s : DJState) (d a now : ℚ)
    (hdrag : s.isDragging = true) (hsrc : s.audioSrc = true)
    (hlock : s.directionLock = 1) (hrate : s.cwPlaybackRate = 1)
    (hccw : s.ccwAngleAccumulatorDeg = 0)
    (hneg : d < 0) (hdz : angleDeadzoneRad ≤ |d|) :
    (dragStep s d a now).1.directionLock = 1 ∧
    (dragStep s d a now).1.switchAccumNegDeg = s.switchAccumNegDeg ∧
    (dragStep s d a now).1.cwPlaybackRate = 1 ∧
    (0 < (dragStep s d a now).1.ccwAngleAccumulatorDeg ∨ (dragStep s d a now).2 ≠ none) := by
  rw [dragStep_ccw s d a now hdrag hsrc hneg hdz]
  set s1 : DJState := { s with currentRotation := s.currentRotation + radToDeg d } with hs1
  have hbr : ccwBranch s1 d = ccwSeekBody s1 (radToDeg |d|) := by
    unfold ccwBranch
    rw [if_neg]
    rintro ⟨-, hgt⟩
    have : s1.cwPlaybackRate = 1 := hrate
    rw [this] at hgt
    exact lt_irrefl 1 hgt
  rw [hbr]
  have hf := ccwSeekBody_fields s1 (radToDeg |d|)
  have habs : 0 < |d| := lt_of_lt_of_le (by norm_num [angleDeadzoneRad]) hdz
  refine ⟨?_, ?_, ?_, ?_⟩
  · simpa [stamp, hf.2.2.1] using hlock
  · simpa [stamp] using hf.2.2.2.2.1
  · simpa [stamp, hf.2.2.2.1] using hrate
  · rcases ccwSeekBody_cases s1 (radToDeg |d|) with ⟨-, hacc, -⟩ | ⟨-, -, hcmd⟩
    · left
      have h0 : s1.ccwAngleAccumulatorDeg = 0 := hccw
      have hproj : (stamp (ccwSeekBody s1 (radToDeg |d|)) a now).1.ccwAngleAccumulatorDeg =
          s1.ccwAngleAccumulatorDeg + radToDeg |d| := by
        simp [stamp, hacc]
      rw [hproj, h0, zero_add]
      exact radToDeg_pos habs
    · right
      simp [stamp, hcmd]

/-- C10 witness: a 10° counter-clockwise delta in such a session starts
backward seeking immediately and keeps the clockwise lock. -/
theorem c10_hysteresis_bypass_witness :
    (exC10.directionLock = 1 ∧ exC10.cwPlaybackRate = 1 ∧
     exC10.ccwAngleAccumulatorDeg = 0 ∧
     (-(10 * Math.PI / 180) : ℚ) < 0 ∧
     angleDeadzoneRad ≤ |(-(10 * Math.PI / 180) : ℚ)|) ∧
    ((dragStep exC10 (-(10 * Math.PI / 180)) 0 1000).1.directionLock = 1 ∧
     (dragStep exC10 (-(10 * Math.PI / 180)) 0 1000).1.switchAccumNegDeg =
       exC10.switchAccumNegDeg ∧
     (dragStep exC10 (-(10 * Math.PI / 180)) 0 1000).1.cwPlaybackRate = 1 ∧
     (0 < (dragStep exC10 (-(10 * Math.PI / 180)) 0 1000).1.ccwAngleAccumulatorDeg ∨
      (dragStep exC10 (-(10 * Math.PI / 180)) 0 1000).2 ≠ none)) := by
  refine ⟨⟨?_, ?_, ?_, ?_, ?_⟩,
    c10_hysteresis_bypass exC10 (-(10 * Math.PI / 180)) 0 1000 ?_ ?_ ?_ ?_ ?_ ?_ ?_⟩ <;>
    norm_num [exC10, initialState, Math.PI, angleDeadzoneRad, le_abs]

/-- The scrub hysteresis never touches the audio element state. -/
lemma cwScrubHysteresis_audio (s : DJState) (v now : ℚ) :
    (cwScrubHysteresis s v now).audioCurrentTime = s.audioCurrentTime ∧
    (cwScrubHysteresis s v now).audioDuration = s.audioDuration := by
  unfold cwScrubHysteresis
  split_ifs <;> simp

/-- Shape of a command emitted by the forward (fast-scrub) step seeker. -/
lemma cwSeekBody_cmd_spec (s : DJState) (dg : ℚ) (c : Cmd)
    (h : (cwSeekBody s dg).2 = some c) :
    cwSeekAngleStepDeg ≤ s.cwAngleAccumulatorDeg + dg ∧
    c = Cmd.seekFwd
        ((⌊(s.cwAngleAccumulatorDeg + dg) / cwSeekAngleStepDeg⌋ : ℚ) * cwSeekStepSeconds)
        (fwdTarget s.audioDuration (s.audioCurrentTime +
          (⌊(s.cwAngleAccumulatorDeg + dg) / cwSeekAngleStepDeg⌋ : ℚ) * cwSeekStepSeconds)) := by
  unfold cwSeekBody at h
  by_cases hf : s.cwAngleAccumulatorDeg + dg ≥ cwSeekAngleStepDeg
  · rw [if_pos hf] at h
    refine ⟨hf, ?_⟩
    simpa using h.symm
  · rw [if_neg hf] at h
    simp at h

/-- Shape of a command emitted by the backward step seeker. -/
lemma ccwSeekBody_cmd_spec (s : DJState) (dg : ℚ) (c : Cmd)
    (h : (ccwSeekBody s dg).2 = some c) :
    seekAngleStepDeg ≤ s.ccwAngleAccumulatorDeg + dg ∧
    c = Cmd.seekBack
        ((⌊(s.ccwAngleAccumulatorDeg + dg) / seekAngleStepDeg⌋ : ℚ) * seekStepSeconds)
        (max 0 (s.audioCurrentTime -
          (⌊(s.ccwAngleAccumulatorDeg + dg) / seekAngleStepDeg⌋ : ℚ) * seekStepSeconds)) := by
  unfold ccwSeekBody at h
  by_cases hf : s.ccwAngleAccumulatorDeg + dg ≥ seekAngleStepDeg
  · rw [if_pos hf] at h
    refine ⟨hf, ?_⟩
    simpa using h.symm
  · rw [if_neg hf] at h
    simp at h

/-- Every command emitted by `dragStep` comes from one of the two step
seekers, applied to a state with the same audio position and duration. -/
lemma dragStep_cmd_cases (s : DJState) (d a now : ℚ) (c : Cmd)
    (h : (dragStep s d a now).2 = some c) :
    ∃ s2 dg, ((cwSeekBody s2 dg).2 = some c ∨ (ccwSeekBody s2 dg).2 = some c) ∧
      s2.audioCurrentTime = s.audioCurrentTime ∧ s2.audioDuration = s.audioDuration := by
  by_cases hg : s.isDragging = true ∧ s.audioSrc = true
  · by_cases hdz : |d| < angleDeadzoneRad
    · unfold dragStep at h
      rw [if_pos ⟨hg.1, hg.2⟩, if_pos hdz] at h
      simp at h
    · by_cases hcw : 0 < d
      · rw [dragStep_cw s d a now hg.1 hg.2 hcw (not_lt.mp hdz)] at h
        simp only [stamp] at h
        unfold cwBranch at h
        split_ifs at h with hscrub
        all_goals
          exact ⟨_, _, Or.inl h, (cwScrubHysteresis_audio _ _ _).1,
            (cwScrubHysteresis_audio _ _ _).2⟩
      · have hne : d ≠ 0 := by
          intro h0
          rw [h0] at hdz
          exact hdz (by norm_num [angleDeadzoneRad])
        have hneg : d < 0 := lt_of_le_of_ne (not_lt.mp hcw) hne
        rw [dragStep_ccw s d a now hg.1 hg.2 hneg (not_lt.mp hdz)] at h
        simp only [stamp] at h
        unfold ccwBranch at h
        split_ifs at h with hguard hbelow
        all_goals exact ⟨_, _, Or.inr h, rfl, rfl⟩
  · unfold dragStep at h
    rw [if_neg (by
      intro hand
      exact hg ⟨hand.1, hand.2⟩)] at h
    simp at h

/-- C7 (amended): when the duration is known, positive, and the current
time lies in `[0, duration]`, every emitted seek target is clamped to
`[0, duration]`; when the duration is unknown, seeks are NOT suppressed —
backward targets are still clamped below at 0, but forward targets are the
unclamped `currentTime + seconds`. -/
theorem c7_seek_clamping (s : DJState) (d a now : ℚ) (c : Cmd) :
    (∀ dur : ℚ, s.audioDuration = some dur → 0 < dur →
      0 ≤ s.audioCurrentTime → s.audioCurrentTime ≤ dur →
      (dragStep s d a now).2 = some c → 0 ≤ c.target ∧ c.target ≤ dur) ∧
    (s.audioDuration = none → 0 ≤ s.audioCurrentTime →
      (dragStep s d a now).2 = some c →
      0 ≤ c.target ∧ ∀ sec t, c = Cmd.seekFwd sec t → t = s.audioCurrentTime + sec) := by
  constructor
  · intro dur hdur hdpos hct0 hctd h
    obtain ⟨s2, dg, hcase, hct, hdu⟩ := dragStep_cmd_cases s d a now c h
    rcases hcase with hcw | hccw
    · obtain ⟨hge, hc⟩ := cwSeekBody_cmd_spec s2 dg c hcw
      have hsec : (0:ℚ) ≤
          (⌊(s2.cwAngleAccumulatorDeg + dg) / cwSeekAngleStepDeg⌋ : ℚ) * cwSeekStepSeconds := by
        have h1 : 1 ≤ ⌊(s2.cwAngleAccumulatorDeg + dg) / cwSeekAngleStepDeg⌋ :=
          one_le_floor_div _ _ (by norm_num [cwSeekAngleStepDeg]) hge
        have h2 : (1:ℚ) ≤ (⌊(s2.cwAngleAccumulatorDeg + dg) / cwSeekAngleStepDeg⌋ : ℚ) := by
          exact_mod_cast h1
        rw [cwSeekStepSeconds, mul_one]
        linarith
      subst hc
      simp only [Cmd.target]
      rw [hdu, hdur]
      simp only [fwdTarget]
      rw [if_neg hdpos.ne', hct]
      exact ⟨le_min hdpos.le (by linarith), min_le_left _ _⟩
    · obtain ⟨hge, hc⟩ := ccwSeekBody_cmd_spec s2 dg c hccw
      have hsec : (0:ℚ) ≤
          (⌊(s2.ccwAngleAccumulatorDeg + dg) / seekAngleStepDeg⌋ : ℚ) * seekStepSeconds := by
        have h1 : 1 ≤ ⌊(s2.ccwAngleAccumulatorDeg + dg) / seekAngleStepDeg⌋ :=
          one_le_floor_div _ _ (by norm_num [seekAngleStepDeg]) hge
        have h2 : (1:ℚ) ≤ (⌊(s2.ccwAngleAccumulatorDeg + dg) / seekAngleStepDeg⌋ : ℚ) := by
          exact_mod_cast h1
        rw [seekStepSeconds]
        linarith
      subst hc
      simp only [Cmd.target]
      rw [hct]
      refine ⟨le_max_left _ _, ?_⟩
      rw [max_le_iff]
      exact ⟨hdpos.le, by linarith⟩
  · intro hdur hct0 h
    obtain ⟨s2, dg, hcase, hct, hdu⟩ := dragStep_cmd_cases s d a now c h
    rcases hcase with hcw | hccw
    · obtain ⟨hge, hc⟩ := cwSeekBody_cmd_spec s2 dg c hcw
      have hsec : (0:ℚ) ≤
          (⌊(s2.cwAngleAccumulatorDeg + dg) / cwSeekAngleStepDeg⌋ : ℚ) * cwSeekStepSeconds := by
        have h1 : 1 ≤ ⌊(s2.cwAngleAccumulatorDeg + dg) / cwSeekAngleStepDeg⌋ :=
          one_le_floor_div _ _ (by norm_num [cwSeekAngleStepDeg]) hge
        have h2 : (1:ℚ) ≤ (⌊(s2.cwAngleAccumulatorDeg + dg) / cwSeekAngleStepDeg⌋ : ℚ) := by
          exact_mod_cast h1
        rw [cwSeekStepSeconds, mul_one]
        linarith
      subst hc
      simp only [Cmd.target]
      rw [hdu, hdur]
      simp only [fwdTarget]
      refine ⟨by rw [hct]; linarith, ?_⟩
      intro sec t hst
      obtain ⟨h1, h2⟩ := Cmd.seekFwd.inj hst
      rw [← h2, ← h1, hct]
    · obtain ⟨hge, hc⟩ := ccwSeekBody_cmd_spec s2 dg c hccw
      subst hc
      simp only [Cmd.target]
      refine ⟨le_max_left _ _, ?_⟩
      intro sec t hst
      exact absurd hst (by simp)

/-- A fast clockwise scrub in progress while the media duration is still
unknown, for C7. -/
def exC7 : DJState :=
  { initialState with
      isDragging := true, audioSrc := true, isCWScrub := true,
      cwAngleAccumulatorDeg := 44, lastDragTime := 1000,
      audioCurrentTime := 5, audioDuration := none }

/-- Concrete evaluation: a 90° clockwise delta at high velocity in `exC7`
emits a 2-second forward seek to time 7 even though the duration is
unknown. -/
lemma exC7_eval :
    (dragStep exC7 (90 * Math.PI / 180) 0 1010).2 = some (Cmd.seekFwd 2 7) := by
  norm_num [dragStep, cwBranch, cwScrubHysteresis, cwSeekBody, cwSpeedBody, stamp,
    fwdTarget, radToDeg, exC7, initialState, Math.PI, angleDeadzoneRad, cwScrubExitVel,
    cwScrubEnterVel, cwScrubExitHoldMs, cwSeekAngleStepDeg, cwSeekStepSeconds,
    abs_lt, le_abs, max_def, abs_of_pos]

/-- A counter-clockwise seek session on loaded media, for C7. -/
def exC7A : DJState :=
  { initialState with
      isDragging := true, audioSrc := true, directionLock := -1,
      audioCurrentTime := 50, audioDuration := some 100 }

/-- Concrete evaluation: a 60° counter-clockwise delta in `exC7A` emits a
20-second backward seek to time 30. -/
lemma exC7A_eval :
    (dragStep exC7A (-(60 * Math.PI / 180)) 0 1000).2 = some (Cmd.seekBack 20 30) := by
  norm_num [dragStep, ccwBranch, ccwSeekBody, stamp, radToDeg, exC7A, initialState,
    Math.PI, angleDeadzoneRad, seekAngleStepDeg, seekStepSeconds, switchThresholdDeg,
    abs_lt, le_abs, max_def, abs_of_pos]

/-- C7 counterexample: with the duration unknown (`none`), a gesture sample
still emits a seek command — the claimed suppression does not happen. -/
theorem c7_counterexample :
    exC7.audioDuration = none ∧
    (dragStep exC7 (90 * Math.PI / 180) 0 1010).2 = some (Cmd.seekFwd 2 7) ∧
    some (Cmd.seekFwd 2 7) ≠ (none : Option Cmd) := by
  exact ⟨rfl, exC7_eval, by simp⟩

/-- C7 witness: a clamped backward seek on loaded media, and an unclamped
(but emitted) forward seek with unknown duration. -/
theorem c7_seek_clamping_witness :
    (exC7A.audioDuration = some 100 ∧ (0:ℚ) < 100 ∧
     0 ≤ exC7A.audioCurrentTime ∧ exC7A.audioCurrentTime ≤ 100 ∧
     (dragStep exC7A (-(60 * Math.PI / 180)) 0 1000).2 = some (Cmd.seekBack 20 30) ∧
     0 ≤ (Cmd.seekBack 20 30).target ∧ (Cmd.seekBack 20 30).target ≤ 100) ∧
    (exC7.audioDuration = none ∧ 0 ≤ exC7.audioCurrentTime ∧
     (dragStep exC7 (90 * Math.PI / 180) 0 1010).2 = some (Cmd.seekFwd 2 7) ∧
     0 ≤ (Cmd.seekFwd 2 7).target ∧
     ∀ sec t, (Cmd.seekFwd 2 7 : Cmd) = Cmd.seekFwd sec t →
       t = exC7.audioCurrentTime + sec) := by
  constructor
  · obtain ⟨ht1, ht2⟩ :=
      (c7_seek_clamping exC7A (-(60 * Math.PI / 180)) 0 1000 (Cmd.seekBack 20 30)).1
        100 rfl (by norm_num) (by norm_num [exC7A, initialState])
        (by norm_num [exC7A, initialState]) exC7A_eval
    exact ⟨rfl, by norm_num, by norm_num [exC7A, initialState],
      by norm_num [exC7A, initialState], exC7A_eval, ht1, ht2⟩
  · obtain ⟨ht1, ht2⟩ :=
      (c7_seek_clamping exC7 (90 * Math.PI / 180) 0 1010 (Cmd.seekFwd 2 7)).2
        rfl (by norm_num [exC7, initialState]) exC7_eval
    exact ⟨rfl, by norm_num [exC7, initialState], exC7_eval, ht1, ht2⟩

/-- Seconds of backward seeking in an optional command. -/
def optBackSeconds : Option Cmd → ℚ
  | none => 0
  | some c => c.backSeconds

lemma backSecondsTotal_append (c : Option Cmd) (l : List Cmd) :
    backSecondsTotal (c.toList ++ l) = optBackSeconds c + backSecondsTotal l := by
  cases c <;> simp [backSecondsTotal, optBackSeconds]

lemma degAbsSum_cons (x : ℚ × ℚ × ℚ) (rest : List (ℚ × ℚ × ℚ)) :
    degAbsSum (x :: rest) = radToDeg |x.1| + degAbsSum rest := by
  simp [degAbsSum]

lemma degAbsSum_nonneg (l : List (ℚ × ℚ × ℚ)) : 0 ≤ degAbsSum l := by
  apply List.sum_nonneg
  intro q hq
  obtain ⟨y, -, rfl⟩ := List.mem_map.mp hq
  exact radToDeg_nonneg (abs_nonneg _)

/-- An accepted CCW sample under the hysteresis (locked clockwise with
raised speed) that stays below the switch threshold: an early return that
only advances the switch accumulator, the rotation and the timestamps. -/
lemma dragStep_ccw_early (s : DJState) (d a now : ℚ)
    (hdrag : s.isDragging = true) (hsrc : s.audioSrc = true)
    (hneg : d < 0) (hdz : angleDeadzoneRad ≤ |d|)
    (hlock : s.directionLock = 1) (hcw : 1 < s.cwPlaybackRate)
    (hthr : s.switchAccumNegDeg + radToDeg |d| < switchThresholdDeg) :
    dragStep s d a now =
      ({ s with
          currentRotation := s.currentRotation + radToDeg d,
          switchAccumNegDeg := s.switchAccumNegDeg + radToDeg |d|,
          lastDragTime := now, lastAngle := a }, none) := by
  rw [dragStep_ccw s d a now hdrag hsrc hneg hdz]
  unfold ccwBranch
  rw [if_pos ⟨hlock, hcw⟩, if_pos hthr]
  rfl

/-- An accepted CCW sample that crosses the switch threshold: the lock
flips to counter-clockwise, the speed resets, scrub state is cleared, and
the sample is handed to the backward step seeker. -/
lemma dragStep_ccw_switch (s : DJState) (d a now : ℚ)
    (hdrag : s.isDragging = true) (hsrc : s.audioSrc = true)
    (hneg : d < 0) (hdz : angleDeadzoneRad ≤ |d|)
    (hlock : s.directionLock = 1) (hcw : 1 < s.cwPlaybackRate)
    (hthr : switchThresholdDeg ≤ s.switchAccumNegDeg + radToDeg |d|) :
    dragStep s d a now =
      stamp (ccwSeekBody
        { s with
            currentRotation := s.currentRotation + radToDeg d,
            switchAccumNegDeg := s.switchAccumNegDeg + radToDeg |d|,
            directionLock := -1, cwPlaybackRate := 1, isCWScrub := false,
            cwAngleAccumulatorDeg := 0, cwScrubBelowExitSince := 0 }
        (radToDeg |d|)) a now := by
  rw [dragStep_ccw s d a now hdrag hsrc hneg hdz]
  unfold ccwBranch
  rw [if_pos ⟨hlock, hcw⟩, if_neg (not_lt.mpr hthr)]

/-- One accepted CCW sample with the switch guard inactive: the step is
pure backward-seek bookkeeping.  `k` is the number of whole steps seeked. -/
lemma ccw_seek_step (s : DJState) (d a now : ℚ)
    (hdrag : s.isDragging = true) (hsrc : s.audioSrc = true)
    (hneg : d < 0) (hdz : angleDeadzoneRad ≤ |d|)
    (hguard : ¬(s.directionLock = 1 ∧ 1 < s.cwPlaybackRate)) :
    ∃ k : ℤ, 0 ≤ k ∧
      optBackSeconds (dragStep s d a now).2 = seekStepSeconds * k ∧
      (dragStep s d a now).1.ccwAngleAccumulatorDeg + seekAngleStepDeg * k =
        s.ccwAngleAccumulatorDeg + radToDeg |d| ∧
      (0 ≤ s.ccwAngleAccumulatorDeg → 0 ≤ (dragStep s d a now).1.ccwAngleAccumulatorDeg) ∧
      (dragStep s d a now).1.ccwAngleAccumulatorDeg < seekAngleStepDeg ∧
      (dragStep s d a now).1.isDragging = true ∧
      (dragStep s d a now).1.audioSrc = true ∧
      (dragStep s d a now).1.directionLock = s.directionLock ∧
      (dragStep s d a now).1.cwPlaybackRate = s.cwPlaybackRate := by
  rw [dragStep_ccw s d a now hdrag hsrc hneg hdz]
  have hdpos : 0 < radToDeg |d| :=
    radToDeg_pos (lt_of_lt_of_le (by norm_num [angleDeadzoneRad]) hdz)
  have hbr : ccwBranch { s with currentRotation := s.currentRotation + radToDeg d } d =
      ccwSeekBody { s with currentRotation := s.currentRotation + radToDeg d }
        (radToDeg |d|) := by
    unfold ccwBranch
    rw [if_neg hguard]
  rw [hbr]
  set s1 : DJState := { s with currentRotation := s.currentRotation + radToDeg d } with hs1
  have hfld := ccwSeekBody_fields s1 (radToDeg |d|)
  rcases ccwSeekBody_cases s1 (radToDeg |d|) with ⟨hlt, hacc, hcmd⟩ | ⟨hge, hacc, hcmd⟩
  · refine ⟨0, le_refl 0, ?_, ?_, ?_, ?_, ?_, ?_, ?_, ?_⟩
    · simp [stamp, hcmd, optBackSeconds]
    · simp only [stamp, hacc]
      push_cast
      ring_nf
    · intro h0
      simp only [stamp, hacc]
      have : (0:ℚ) ≤ s1.ccwAngleAccumulatorDeg := h0
      linarith
    · simp only [stamp, hacc]
      exact hlt
    · simpa [stamp, hfld.1] using hdrag
    · simpa [stamp, hfld.2.1] using hsrc
    · simp [stamp, hfld.2.2.1]
    · simp [stamp, hfld.2.2.2.1]
  · have hstep : (0:ℚ) < seekAngleStepDeg := by norm_num [seekAngleStepDeg]
    have hrem := floor_remainder_bounds (s1.ccwAngleAccumulatorDeg + radToDeg |d|)
      seekAngleStepDeg hstep
    have hone := one_le_floor_div (s1.ccwAngleAccumulatorDeg + radToDeg |d|)
      seekAngleStepDeg hstep hge
    refine ⟨⌊(s1.ccwAngleAccumulatorDeg + radToDeg |d|) / seekAngleStepDeg⌋,
      le_trans (by norm_num) hone, ?_, ?_, ?_, ?_, ?_, ?_, ?_, ?_⟩
    · simp only [stamp, hcmd, optBackSeconds, Cmd.backSeconds]
      ring
    · simp only [stamp, hacc]
      ring_nf
    · intro h0
      simp only [stamp, hacc]
      exact hrem.1
    · simp only [stamp, hacc]
      exact hrem.2
    · simpa [stamp, hfld.1] using hdrag
    · simpa [stamp, hfld.2.1] using hsrc
    · simp [stamp, hfld.2.2.1]
    · simp [stamp, hfld.2.2.2.1]

/-- Backward-seek regime over a whole sample list: the switch guard stays
inactive, the accumulator conserves degrees modulo whole steps, and the
lock and speed are untouched. -/
lemma ccw_seek_run (l : List (ℚ × ℚ × ℚ)) (s : DJState)
    (hdrag : s.isDragging = true) (hsrc : s.audioSrc = true)
    (hguard : ¬(s.directionLock = 1 ∧ 1 < s.cwPlaybackRate))
    (hl : CCWAccepted l)
    (h0 : 0 ≤ s.ccwAngleAccumulatorDeg)
    (h15 : s.ccwAngleAccumulatorDeg < seekAngleStepDeg) :
    ∃ k : ℤ, 0 ≤ k ∧
      backSecondsTotal (dragRun s l).2 = seekStepSeconds * k ∧
      (dragRun s l).1.ccwAngleAccumulatorDeg + seekAngleStepDeg * k =
        s.ccwAngleAccumulatorDeg + degAbsSum l ∧
      0 ≤ (dragRun s l).1.ccwAngleAccumulatorDeg ∧
      (dragRun s l).1.ccwAngleAccumulatorDeg < seekAngleStepDeg ∧
      (dragRun s l).1.directionLock = s.directionLock ∧
      (dragRun s l).1.cwPlaybackRate = s.cwPlaybackRate := by
  induction l generalizing s with
  | nil =>
    refine ⟨0, le_refl 0, ?_, ?_, h0, h15, rfl, rfl⟩
    · simp [dragRun, backSecondsTotal]
    · simp [dragRun, degAbsSum]
  | cons x rest ih =>
    have hx : x.1 < 0 ∧ angleDeadzoneRad ≤ |x.1| := hl x (List.mem_cons_self x rest)
    have hrest : CCWAccepted rest := fun y hy => hl y (List.mem_cons_of_mem x hy)
    obtain ⟨k1, hk10, hback1, heq1, hpos1, hlt1, hd1, hs1, hlo1, hcw1⟩ :=
      ccw_seek_step s x.1 x.2.1 x.2.2 hdrag hsrc hx.1 hx.2 hguard
    have hguard2 : ¬((dragStep s x.1 x.2.1 x.2.2).1.directionLock = 1 ∧
        1 < (dragStep s x.1 x.2.1 x.2.2).1.cwPlaybackRate) := by
      rw [hlo1, hcw1]
      exact hguard
    obtain ⟨k2, hk20, hback2, heq2, hpos2, hlt2, hlo2, hcw2⟩ :=
      ih (dragStep s x.1 x.2.1 x.2.2).1 hd1 hs1 hguard2 hrest (hpos1 h0) hlt1
    refine ⟨k1 + k2, by omega, ?_, ?_, hpos2, hlt2, ?_, ?_⟩
    · show backSecondsTotal ((dragStep s x.1 x.2.1 x.2.2).2.toList ++
        (dragRun (dragStep s x.1 x.2.1 x.2.2).1 rest).2) = _
      rw [backSecondsTotal_append, hback1, hback2]
      push_cast
      ring
    · show (dragRun (dragStep s x.1 x.2.1 x.2.2).1 rest).1.ccwAngleAccumulatorDeg +
        seekAngleStepDeg * (((k1 + k2 : ℤ)) : ℚ) = _
      rw [degAbsSum_cons]
      push_cast
      linarith
    · exact hlo2.trans hlo1
    · exact hcw2.trans hcw1

/-- A counter-clockwise seek session with an empty accumulator, for C4. -/
def exC4 : DJState :=
  { initialState with
      isDragging := true, audioSrc := true, directionLock := -1,
      audioCurrentTime := 100 }

/-- The C4 witness sample list: 20° and 17° counter-clockwise deltas. -/
def lC4 : List (ℚ × ℚ × ℚ) :=
  [(-(20 * Math.PI / 180), 0, 1000), (-(17 * Math.PI / 180), 0, 1100)]

/-- C4: backward step quantization with remainder carry.  In general the
accumulator only ever decreases by whole multiples of `stepSizeDeg = 15`
(each worth `stepSeconds = 5` of backward seek), its remainder carries and
never goes negative; in particular deltas summing to 37° give exactly 10
seconds of backward seeking and leave 7° in the accumulator. -/
theorem c4_step_quantization (s : DJState) (l : List (ℚ × ℚ × ℚ))
    (hdrag : s.isDragging = true) (hsrc : s.audioSrc = true)
    (hguard : ¬(s.directionLock = 1 ∧ 1 < s.cwPlaybackRate))
    (hacc : s.ccwAngleAccumulatorDeg = 0) (hl : CCWAccepted l) :
    (∃ k : ℤ, 0 ≤ k ∧
      backSecondsTotal (dragRun s l).2 = seekStepSeconds * k ∧
      (dragRun s l).1.ccwAngleAccumulatorDeg + seekAngleStepDeg * k = degAbsSum l ∧
      0 ≤ (dragRun s l).1.ccwAngleAccumulatorDeg ∧
      (dragRun s l).1.ccwAngleAccumulatorDeg < seekAngleStepDeg) ∧
    (degAbsSum l = 37 →
      backSecondsTotal (dragRun s l).2 = 10 ∧
      (dragRun s l).1.ccwAngleAccumulatorDeg = 7) := by
  obtain ⟨k, hk0, hback, heq, hge0, hlt, -, -⟩ :=
    ccw_seek_run l s hdrag hsrc hguard hl (by rw [hacc])
      (by rw [hacc]; norm_num [seekAngleStepDeg])
  rw [hacc, zero_add] at heq
  refine ⟨⟨k, hk0, hback, heq, hge0, hlt⟩, ?_⟩
  intro h37
  rw [h37] at heq
  have hk2 : k = 2 := by
    rw [seekAngleStepDeg] at heq hlt
    have h1 : (15:ℤ) * k ≤ 37 := by exact_mod_cast (by linarith : (15:ℚ) * k ≤ 37)
    have h2 : (22:ℤ) < 15 * k := by exact_mod_cast (by linarith : (22:ℚ) < 15 * k)
    omega
  subst hk2
  constructor
  · rw [hback]
    norm_num [seekStepSeconds]
  · rw [seekAngleStepDeg] at heq
    push_cast at heq
    linarith

/-- C4 witness: the spec's 37° example, as a 20° delta followed by a 17°
delta, on a concrete counter-clockwise session. -/
theorem c4_step_quantization_witness :
    (exC4.isDragging = true ∧ exC4.audioSrc = true ∧
     ¬(exC4.directionLock = 1 ∧ 1 < exC4.cwPlaybackRate) ∧
     exC4.ccwAngleAccumulatorDeg = 0 ∧ CCWAccepted lC4 ∧ degAbsSum lC4 = 37) ∧
    (backSecondsTotal (dragRun exC4 lC4).2 = 10 ∧
     (dragRun exC4 lC4).1.ccwAngleAccumulatorDeg = 7) := by
  have hccw : CCWAccepted lC4 := by
    intro x hx
    simp only [lC4, List.mem_cons, List.not_mem_nil, or_false] at hx
    rcases hx with rfl | rfl <;>
      exact ⟨by norm_num [Math.PI], by norm_num [angleDeadzoneRad, Math.PI, le_abs]⟩
  have hdeg : degAbsSum lC4 = 37 := by
    norm_num [lC4, degAbsSum, radToDeg, Math.PI, abs_of_pos]
  refine ⟨⟨rfl, rfl, ?_, rfl, hccw, hdeg⟩,
    (c4_step_quantization exC4 lC4 rfl rfl ?_ rfl hccw).2 hdeg⟩ <;>
    simp [exC4, initialState]

/-- Below-threshold CCW jitter while locked clockwise with raised speed:
the whole run is early returns; only the switch accumulator, rotation and
timestamps move, and nothing is emitted. -/
lemma ccw_below_run (l : List (ℚ × ℚ × ℚ)) (s : DJState)
    (hdrag : s.isDragging = true) (hsrc : s.audioSrc = true)
    (hlock : s.directionLock = 1) (hcw : 1 < s.cwPlaybackRate)
    (hl : CCWAccepted l)
    (hsum : s.switchAccumNegDeg + degAbsSum l < switchThresholdDeg) :
    (dragRun s l).1.directionLock = 1 ∧
    (dragRun s l).1.cwPlaybackRate = s.cwPlaybackRate ∧
    (dragRun s l).1.isCWScrub = s.isCWScrub ∧
    (dragRun s l).1.cwAngleAccumulatorDeg = s.cwAngleAccumulatorDeg ∧
    (dragRun s l).1.cwScrubBelowExitSince = s.cwScrubBelowExitSince ∧
    (dragRun s l).1.ccwAngleAccumulatorDeg = s.ccwAngleAccumulatorDeg ∧
    (dragRun s l).1.audioCurrentTime = s.audioCurrentTime ∧
    (dragRun s l).1.switchAccumNegDeg = s.switchAccumNegDeg + degAbsSum l ∧
    (dragRun s l).2 = [] := by
  induction l generalizing s with
  | nil =>
    exact ⟨hlock, rfl, rfl, rfl, rfl, rfl, rfl, by simp [dragRun, degAbsSum], rfl⟩
  | cons x rest ih =>
    have hx : x.1 < 0 ∧ angleDeadzoneRad ≤ |x.1| := hl x (List.mem_cons_self x rest)
    have hrest : CCWAccepted rest := fun y hy => hl y (List.mem_cons_of_mem x hy)
    have hdegnn := degAbsSum_nonneg rest
    rw [degAbsSum_cons] at hsum
    have hthr : s.switchAccumNegDeg + radToDeg |x.1| < switchThresholdDeg := by
      linarith
    have hstep := dragStep_ccw_early s x.1 x.2.1 x.2.2 hdrag hsrc hx.1 hx.2 hlock hcw hthr
    have hrun : dragRun s (x :: rest) =
        ((dragRun (dragStep s x.1 x.2.1 x.2.2).1 rest).1,
         (dragStep s x.1 x.2.1 x.2.2).2.toList ++
           (dragRun (dragStep s x.1 x.2.1 x.2.2).1 rest).2) := rfl
    set s2 : DJState := { s with
        currentRotation := s.currentRotation + radToDeg x.1,
        switchAccumNegDeg := s.switchAccumNegDeg + radToDeg |x.1|,
        lastDragTime := x.2.2, lastAngle := x.2.1 } with hs2
    obtain ⟨ihl, ihcw, ihscr, ihcwa, ihbel, ihccw, ihct, ihsw, ihcm⟩ :=
      ih s2 hdrag hsrc hlock hcw hrest (by
        show s.switchAccumNegDeg + radToDeg |x.1| + degAbsSum rest < switchThresholdDeg
        linarith)
    rw [hrun, hstep]
    refine ⟨ihl, ihcw, ihscr, ihcwa, ihbel, ihccw, ihct, ?_, ?_⟩
    · rw [degAbsSum_cons, ← add_assoc]
      exact ihsw
    · simpa using ihcm

/-- A CCW run that crosses the 20° switch threshold: the lock flips to
counter-clockwise, the speed resets to 1, and backward seeking begins (the
backward accumulator ends positive or a backward seek was emitted). -/
lemma ccw_switch_run (l : List (ℚ × ℚ × ℚ)) (s : DJState)
    (hdrag : s.isDragging = true) (hsrc : s.audioSrc = true)
    (hlock : s.directionLock = 1) (hcw : 1 < s.cwPlaybackRate)
    (hl : CCWAccepted l) (hccw0 : s.ccwAngleAccumulatorDeg = 0)
    (hbelow : s.switchAccumNegDeg < switchThresholdDeg)
    (hsum : switchThresholdDeg ≤ s.switchAccumNegDeg + degAbsSum l) :
    (dragRun s l).1.directionLock = -1 ∧
    (dragRun s l).1.cwPlaybackRate = 1 ∧
    (0 < (dragRun s l).1.ccwAngleAccumulatorDeg ∨ (dragRun s l).2 ≠ []) := by
  induction l generalizing s with
  | nil =>
    exfalso
    simp only [degAbsSum, List.map_nil, List.sum_nil, add_zero] at hsum
    linarith
  | cons x rest ih =>
    have hx : x.1 < 0 ∧ angleDeadzoneRad ≤ |x.1| := hl x (List.mem_cons_self x rest)
    have hrest : CCWAccepted rest := fun y hy => hl y (List.mem_cons_of_mem x hy)
    have hdpos : 0 < radToDeg |x.1| :=
      radToDeg_pos (lt_of_lt_of_le (by norm_num [angleDeadzoneRad]) hx.2)
    have hrun : dragRun s (x :: rest) =
        ((dragRun (dragStep s x.1 x.2.1 x.2.2).1 rest).1,
         (dragStep s x.1 x.2.1 x.2.2).2.toList ++
           (dragRun (dragStep s x.1 x.2.1 x.2.2).1 rest).2) := rfl
    by_cases hthr : s.switchAccumNegDeg + radToDeg |x.1| < switchThresholdDeg
    · -- still below threshold at this sample: early return, recurse
      have hstep := dragStep_ccw_early s x.1 x.2.1 x.2.2 hdrag hsrc hx.1 hx.2 hlock hcw hthr
      set s2 : DJState := { s with
          currentRotation := s.currentRotation + radToDeg x.1,
          switchAccumNegDeg := s.switchAccumNegDeg + radToDeg |x.1|,
          lastDragTime := x.2.2, lastAngle := x.2.1 } with hs2
      obtain ⟨ihl, ihcw, ihor⟩ :=
        ih s2 hdrag hsrc hlock hcw hrest hccw0 hthr (by
          show switchThresholdDeg ≤ s.switchAccumNegDeg + radToDeg |x.1| + degAbsSum rest
          rw [degAbsSum_cons] at hsum
          linarith)
      rw [hrun, hstep]
      refine ⟨ihl, ihcw, ?_⟩
      rcases ihor with h | h
      · exact Or.inl h
      · exact Or.inr (by simpa using h)
    · -- threshold crossed: the switch happens on this sample
      push_neg at hthr
      have hstep := dragStep_ccw_switch s x.1 x.2.1 x.2.2 hdrag hsrc hx.1 hx.2 hlock hcw hthr
      set sSw : DJState := { s with
          currentRotation := s.currentRotation + radToDeg x.1,
          switchAccumNegDeg := s.switchAccumNegDeg + radToDeg |x.1|,
          directionLock := -1, cwPlaybackRate := 1, isCWScrub := false,
          cwAngleAccumulatorDeg := 0, cwScrubBelowExitSince := 0 } with hsw
      have hf := ccwSeekBody_fields sSw (radToDeg |x.1|)
      have hguard2 : ¬((dragStep s x.1 x.2.1 x.2.2).1.directionLock = 1 ∧
          1 < (dragStep s x.1 x.2.1 x.2.2).1.cwPlaybackRate) := by
        rw [hstep]
        intro hand
        have h1 : (ccwSeekBody sSw (radToDeg |x.1|)).1.directionLock = 1 := hand.1
        rw [hf.2.2.1] at h1
        exact absurd h1 (by norm_num [hsw])
      have hd2 : (dragStep s x.1 x.2.1 x.2.2).1.isDragging = true := by
        rw [hstep]
        show (ccwSeekBody sSw (radToDeg |x.1|)).1.isDragging = true
        rw [hf.1]
        exact hdrag
      have hs2 : (dragStep s x.1 x.2.1 x.2.2).1.audioSrc = true := by
        rw [hstep]
        show (ccwSeekBody sSw (radToDeg |x.1|)).1.audioSrc = true
        rw [hf.2.1]
        exact hsrc
      have hlock2 : (dragStep s x.1 x.2.1 x.2.2).1.directionLock = -1 := by
        rw [hstep]
        show (ccwSeekBody sSw (radToDeg |x.1|)).1.directionLock = -1
        rw [hf.2.2.1]
      have hcw2 : (dragStep s x.1 x.2.1 x.2.2).1.cwPlaybackRate = 1 := by
        rw [hstep]
        show (ccwSeekBody sSw (radToDeg |x.1|)).1.cwPlaybackRate = 1
        rw [hf.2.2.2.1]
      have hsSwacc : sSw.ccwAngleAccumulatorDeg = 0 := hccw0
      rcases ccwSeekBody_cases sSw (radToDeg |x.1|) with ⟨hlt, hacc, hcmd⟩ | ⟨hge, hacc, hcmd⟩
      · -- seeker did not fire on the switch sample: accumulator is positive
        have hacc2 : (dragStep s x.1 x.2.1 x.2.2).1.ccwAngleAccumulatorDeg =
            radToDeg |x.1| := by
          rw [hstep]
          show (ccwSeekBody sSw (radToDeg |x.1|)).1.ccwAngleAccumulatorDeg = _
          rw [hacc, hsSwacc, zero_add]
        obtain ⟨k2, hk20, hback2, heq2, hge02, hlt2, hlo2, hcw22⟩ :=
          ccw_seek_run rest (dragStep s x.1 x.2.1 x.2.2).1 hd2 hs2
            (by rw [hlock2, hcw2]; norm_num) hrest
            (by rw [hacc2]; exact hdpos.le)
            (by
              rw [hacc2]
              rw [hsSwacc, zero_add] at hlt
              exact hlt)
        rw [hrun]
        refine ⟨hlo2.trans hlock2, hcw22.trans hcw2, ?_⟩
        rcases eq_or_lt_of_le hk20 with hk | hk
        · left
          have : (0:ℚ) < radToDeg |x.1| + degAbsSum rest :=
            lt_of_lt_of_le hdpos (by
              have := degAbsSum_nonneg rest
              linarith)
          rw [← hk] at heq2
          push_cast at heq2
          rw [hacc2] at heq2
          linarith
        · right
          have hb : backSecondsTotal (dragRun (dragStep s x.1 x.2.1 x.2.2).1 rest).2 ≠ 0 := by
            rw [hback2, seekStepSeconds]
            have : (0:ℚ) < 5 * (k2:ℚ) := by
              have : (0:ℚ) < (k2:ℚ) := by exact_mod_cast hk
              linarith
            linarith
          intro he
          apply hb
          have : (dragRun (dragStep s x.1 x.2.1 x.2.2).1 rest).2 = [] := by
            rcases List.append_eq_nil.mp he with ⟨-, h2⟩
            exact h2
          rw [this]
          simp [backSecondsTotal]
      · -- seeker fired on the switch sample: a command was emitted at once
        obtain ⟨k2, hk20, hback2, heq2, hge02, hlt2, hlo2, hcw22⟩ :=
          ccw_seek_run rest (dragStep s x.1 x.2.1 x.2.2).1 hd2 hs2
            (by rw [hlock2, hcw2]; norm_num) hrest
            (by
              rw [hstep]
              show 0 ≤ (ccwSeekBody sSw (radToDeg |x.1|)).1.ccwAngleAccumulatorDeg
              rw [hacc]
              exact (floor_remainder_bounds _ _ (by norm_num [seekAngleStepDeg])).1)
            (by
              rw [hstep]
              show (ccwSeekBody sSw (radToDeg |x.1|)).1.ccwAngleAccumulatorDeg < _
              rw [hacc]
              exact (floor_remainder_bounds _ _ (by norm_num [seekAngleStepDeg])).2)
        rw [hrun]
        refine ⟨hlo2.trans hlock2, hcw22.trans hcw2, Or.inr ?_⟩
        have hc2 : (dragStep s x.1 x.2.1 x.2.2).2 =
            some (Cmd.seekBack
              ((⌊(sSw.ccwAngleAccumulatorDeg + radToDeg |x.1|) / seekAngleStepDeg⌋ : ℚ) *
                seekStepSeconds)
              (max 0 (sSw.audioCurrentTime -
                (⌊(sSw.ccwAngleAccumulatorDeg + radToDeg |x.1|) / seekAngleStepDeg⌋ : ℚ) *
                  seekStepSeconds))) := by
          rw [hstep]
          show (ccwSeekBody sSw (radToDeg |x.1|)).2 = _
          exact hcmd
        rw [hc2]
        simp

/-- A clockwise speed session at rate 2.0 with clean accumulators, for C1. -/
def exC1 : DJState :=
  { initialState with
      isDragging := true, audioSrc := true, directionLock := 1,
      cwPlaybackRate := 2, playbackRate := 2, audioCurrentTime := 100 }

/-- A single 19° counter-clockwise delta (stays below the threshold). -/
def lC1A : List (ℚ × ℚ × ℚ) := [(-(19 * Math.PI / 180), 0, 1000)]

/-- A single 21° counter-clockwise delta (crosses the threshold). -/
def lC1B : List (ℚ × ℚ × ℚ) := [(-(21 * Math.PI / 180), 0, 1000)]

/-- C1: direction-switch hysteresis.  With `directionLock = Clockwise`,
`cwSpeedMultiplier > 1` and a clean switch accumulator, accepted CCW deltas
summing below 20° leave the lock, the speed multiplier and the scrub state
unchanged and emit nothing; once the sum reaches 20° the lock flips to
CounterClockwise, the speed resets to 1.0, and backward step seeking has
begun (positive backward accumulator or an emitted backward seek). -/
theorem c1_direction_switch_hysteresis (s : DJState) (l : List (ℚ × ℚ × ℚ))
    (hdrag : s.isDragging = true) (hsrc : s.audioSrc = true)
    (hlock : s.directionLock = 1) (hcw : 1 < s.cwPlaybackRate)
    (hsw : s.switchAccumNegDeg = 0) (hccw0 : s.ccwAngleAccumulatorDeg = 0)
    (hl : CCWAccepted l) :
    (degAbsSum l < switchThresholdDeg →
      (dragRun s l).1.directionLock = 1 ∧
      (dragRun s l).1.cwPlaybackRate = s.cwPlaybackRate ∧
      (dragRun s l).1.isCWScrub = s.isCWScrub ∧
      (dragRun s l).1.cwAngleAccumulatorDeg = s.cwAngleAccumulatorDeg ∧
      (dragRun s l).1.cwScrubBelowExitSince = s.cwScrubBelowExitSince ∧
      (dragRun s l).1.audioCurrentTime = s.audioCurrentTime ∧
      (dragRun s l).2 = []) ∧
    (switchThresholdDeg ≤ degAbsSum l →
      (dragRun s l).1.directionLock = -1 ∧
      (dragRun s l).1.cwPlaybackRate = 1 ∧
      (0 < (dragRun s l).1.ccwAngleAccumulatorDeg ∨ (dragRun s l).2 ≠ [])) := by
  constructor
  · intro hlt
    obtain ⟨h1, h2, h3, h4, h5, h6, h7, -, h9⟩ :=
      ccw_below_run l s hdrag hsrc hlock hcw hl (by rw [hsw, zero_add]; exact hlt)
    exact ⟨h1, h2, h3, h4, h5, h7, h9⟩
  · intro hge
    exact ccw_switch_run l s hdrag hsrc hlock hcw hl hccw0
      (by rw [hsw]; norm_num [switchThresholdDeg])
      (by rw [hsw, zero_add]; exact hge)

/-- C1 witness: a 19° CCW delta changes nothing, a 21° CCW delta switches
direction and starts backward seeking. -/
theorem c1_direction_switch_hysteresis_witness :
    (exC1.isDragging = true ∧ exC1.audioSrc = true ∧ exC1.directionLock = 1 ∧
     1 < exC1.cwPlaybackRate ∧ exC1.switchAccumNegDeg = 0 ∧
     exC1.ccwAngleAccumulatorDeg = 0 ∧ CCWAccepted lC1A ∧ CCWAccepted lC1B ∧
     degAbsSum lC1A < switchThresholdDeg ∧ switchThresholdDeg ≤ degAbsSum lC1B) ∧
    ((dragRun exC1 lC1A).1.directionLock = 1 ∧
     (dragRun exC1 lC1A).1.cwPlaybackRate = exC1.cwPlaybackRate ∧
     (dragRun exC1 lC1A).1.isCWScrub = exC1.isCWScrub ∧
     (dragRun exC1 lC1A).1.cwAngleAccumulatorDeg = exC1.cwAngleAccumulatorDeg ∧
     (dragRun exC1 lC1A).1.cwScrubBelowExitSince = exC1.cwScrubBelowExitSince ∧
     (dragRun exC1 lC1A).1.audioCurrentTime = exC1.audioCurrentTime ∧
     (dragRun exC1 lC1A).2 = []) ∧
    ((dragRun exC1 lC1B).1.directionLock = -1 ∧
     (dragRun exC1 lC1B).1.cwPlaybackRate = 1 ∧
     (0 < (dragRun exC1 lC1B).1.ccwAngleAccumulatorDeg ∨ (dragRun exC1 lC1B).2 ≠ [])) := by
  have hA : CCWAccepted lC1A := by
    intro x hx
    simp only [lC1A, List.mem_cons, List.not_mem_nil, or_false] at hx
    subst hx
    exact ⟨by norm_num [Math.PI], by norm_num [angleDeadzoneRad, Math.PI, le_abs]⟩
  have hB : CCWAccepted lC1B := by
    intro x hx
    simp only [lC1B, List.mem_cons, List.not_mem_nil, or_false] at hx
    subst hx
    exact ⟨by norm_num [Math.PI], by norm_num [angleDeadzoneRad, Math.PI, le_abs]⟩
  have hdA : degAbsSum lC1A < switchThresholdDeg := by
    norm_num [lC1A, degAbsSum, radToDeg, Math.PI, switchThresholdDeg, abs_of_pos]
  have hdB : switchThresholdDeg ≤ degAbsSum lC1B := by
    norm_num [lC1B, degAbsSum, radToDeg, Math.PI, switchThresholdDeg, abs_of_pos]
  refine ⟨⟨rfl, rfl, rfl, by norm_num [exC1, initialState], rfl, rfl, hA, hB, hdA, hdB⟩,
    (c1_direction_switch_hysteresis exC1 lC1A rfl rfl rfl
      (by norm_num [exC1, initialState]) rfl rfl hA).1 hdA,
    (c1_direction_switch_hysteresis exC1 lC1B rfl rfl rfl
      (by norm_num [exC1, initialState]) rfl rfl hB).2 hdB⟩

/-- A chain of accepted clockwise samples at sub-scrub-entry velocity; the
velocity of each sample is computed against the previous sample's time
(`t0` for the first). -/
def SpeedChain : ℚ → List (ℚ × ℚ × ℚ) → Prop
  | _, [] => True
  | t0, x :: rest =>
    0 < x.1 ∧ angleDeadzoneRad ≤ |x.1| ∧
    |x.1| / max 0.0001 ((x.2.2 - t0) / 1000) < cwScrubEnterVel ∧
    SpeedChain x.2.2 rest

/-- The scrub hysteresis is the identity when not in scrub mode and below
the enter velocity. -/
lemma cwScrubHysteresis_id (s : DJState) (v now : ℚ) (hscrub : s.isCWScrub = false)
    (hvel : v < cwScrubEnterVel) : cwScrubHysteresis s v now = s := by
  unfold cwScrubHysteresis
  rw [if_neg (by simp [hscrub]), if_neg (not_le.mpr hvel)]

/-- One accepted clockwise sample in speed mode (not in scrub, below the
enter velocity): the cumulative rate update of lines 220-229. -/
lemma cw_speed_step (s : DJState) (d a now : ℚ)
    (hdrag : s.isDragging = true) (hsrc : s.audioSrc = true)
    (hpos : 0 < d) (hdz : angleDeadzoneRad ≤ |d|)
    (hscrub : s.isCWScrub = false)
    (hvel : |d| / max 0.0001 ((now - s.lastDragTime) / 1000) < cwScrubEnterVel) :
    (dragStep s d a now).1.cwPlaybackRate =
      min maxPlaybackRate (s.cwPlaybackRate + |d| * cwRatePerRad) ∧
    (dragStep s d a now).1.playbackRate =
      min maxPlaybackRate (s.cwPlaybackRate + |d| * cwRatePerRad) ∧
    (dragStep s d a now).1.isCWScrub = false ∧
    (dragStep s d a now).1.lastDragTime = now ∧
    (dragStep s d a now).1.isDragging = true ∧
    (dragStep s d a now).1.audioSrc = true ∧
    (dragStep s d a now).2 = none := by
  rw [dragStep_cw s d a now hdrag hsrc hpos hdz]
  unfold cwBranch cwScrubHysteresis
  refine ⟨?_, ?_, ?_, ?_, ?_, ?_, ?_⟩ <;>
    simp [stamp, cwSpeedBody, hscrub, hdrag, hsrc, not_le.mpr hvel]

/-- Clockwise speed accumulation over a whole sample run. -/
lemma cw_speed_run (l : List (ℚ × ℚ × ℚ)) (s : DJState)
    (hdrag : s.isDragging = true) (hsrc : s.audioSrc = true)
    (hscrub : s.isCWScrub = false) (hpr : s.playbackRate = s.cwPlaybackRate)
    (h1 : 1 ≤ s.cwPlaybackRate) (h5 : s.cwPlaybackRate ≤ maxPlaybackRate)
    (hl : SpeedChain s.lastDragTime l) :
    (dragRun s l).1.cwPlaybackRate =
      l.foldl (fun r x => min maxPlaybackRate (r + |x.1| * cwRatePerRad))
        s.cwPlaybackRate ∧
    (dragRun s l).1.playbackRate = (dragRun s l).1.cwPlaybackRate ∧
    s.cwPlaybackRate ≤ (dragRun s l).1.cwPlaybackRate ∧
    1 ≤ (dragRun s l).1.cwPlaybackRate ∧
    (dragRun s l).1.cwPlaybackRate ≤ maxPlaybackRate := by
  induction l generalizing s with
  | nil => exact ⟨rfl, hpr, le_refl _, h1, h5⟩
  | cons x rest ih =>
    obtain ⟨hxpos, hxdz, hxvel, hchain⟩ := hl
    obtain ⟨hr1, hr2, hr3, hr4, hr5, hr6, -⟩ :=
      cw_speed_step s x.1 x.2.1 x.2.2 hdrag hsrc hxpos hxdz hscrub hxvel
    have hmax : (1:ℚ) ≤ maxPlaybackRate := by norm_num [maxPlaybackRate]
    have hnn : 0 ≤ |x.1| * cwRatePerRad :=
      mul_nonneg (abs_nonneg _) (by norm_num [cwRatePerRad])
    have hmono : s.cwPlaybackRate ≤
        min maxPlaybackRate (s.cwPlaybackRate + |x.1| * cwRatePerRad) :=
      le_min h5 (by linarith)
    have hub : min maxPlaybackRate (s.cwPlaybackRate + |x.1| * cwRatePerRad) ≤
        maxPlaybackRate := min_le_left _ _
    obtain ⟨ih1, ih2, ih3, ih4, ih5⟩ :=
      ih (dragStep s x.1 x.2.1 x.2.2).1 hr5 hr6 hr3 (hr2.trans hr1.symm)
        (by rw [hr1]; linarith) (by rw [hr1]; exact hub)
        (by rw [hr4]; exact hchain)
    refine ⟨?_, ih2, ?_, ih4, ih5⟩
    · show (dragRun (dragStep s x.1 x.2.1 x.2.2).1 rest).1.cwPlaybackRate = _
      rw [List.foldl_cons, ih1, hr1]
    · show s.cwPlaybackRate ≤
        (dragRun (dragStep s x.1 x.2.1 x.2.2).1 rest).1.cwPlaybackRate
      calc s.cwPlaybackRate ≤
          min maxPlaybackRate (s.cwPlaybackRate + |x.1| * cwRatePerRad) := hmono
        _ = (dragStep s x.1 x.2.1 x.2.2).1.cwPlaybackRate := hr1.symm
        _ ≤ _ := ih3

/-- A clockwise speed session mid-drag, for C3. -/
def exC3 : DJState :=
  { initialState with
      isDragging := true, audioSrc := true, directionLock := 1,
      cwPlaybackRate := 1, playbackRate := 1, lastDragTime := 0 }

/-- The C3 witness sample list: one 1-radian clockwise delta over one
second (velocity 1 rad/s, far below the 22 rad/s scrub-entry). -/
def lC3 : List (ℚ × ℚ × ℚ) := [(1, 0, 1000)]

/-- C3: clockwise speed accumulation.  Each accepted clockwise delta in
speed mode sets the rate to `min(maxRate, rate + |delta| * gain)` — the run
computes exactly the fold of that update — so the rate is monotonically
non-decreasing and stays in `[1.0, 5.0]`. -/
theorem c3_speed_accumulation (s : DJState) (l : List (ℚ × ℚ × ℚ))
    (hdrag : s.isDragging = true) (hsrc : s.audioSrc = true)
    (hscrub : s.isCWScrub = false) (hpr : s.playbackRate = s.cwPlaybackRate)
    (h1 : 1 ≤ s.cwPlaybackRate) (h5 : s.cwPlaybackRate ≤ maxPlaybackRate)
    (hl : SpeedChain s.lastDragTime l) :
    (dragRun s l).1.cwPlaybackRate =
      l.foldl (fun r x => min maxPlaybackRate (r + |x.1| * cwRatePerRad))
        s.cwPlaybackRate ∧
    (dragRun s l).1.playbackRate = (dragRun s l).1.cwPlaybackRate ∧
    s.cwPlaybackRate ≤ (dragRun s l).1.cwPlaybackRate ∧
    1 ≤ (dragRun s l).1.cwPlaybackRate ∧
    (dragRun s l).1.cwPlaybackRate ≤ maxPlaybackRate :=
  cw_speed_run l s hdrag hsrc hscrub hpr h1 h5 hl

/-- C3 witness: a single slow 1-radian clockwise delta raises the rate to
min(5, 1 + 0.15) and all the bounds hold. -/
theorem c3_speed_accumulation_witness :
    (exC3.isDragging = true ∧ exC3.audioSrc = true ∧ exC3.isCWScrub = false ∧
     exC3.playbackRate = exC3.cwPlaybackRate ∧ 1 ≤ exC3.cwPlaybackRate ∧
     exC3.cwPlaybackRate ≤ maxPlaybackRate ∧ SpeedChain exC3.lastDragTime lC3) ∧
    ((dragRun exC3 lC3).1.cwPlaybackRate =
       lC3.foldl (fun r x => min maxPlaybackRate (r + |x.1| * cwRatePerRad))
         exC3.cwPlaybackRate ∧
     (dragRun exC3 lC3).1.playbackRate = (dragRun exC3 lC3).1.cwPlaybackRate ∧
     exC3.cwPlaybackRate ≤ (dragRun exC3 lC3).1.cwPlaybackRate ∧
     1 ≤ (dragRun exC3 lC3).1.cwPlaybackRate ∧
     (dragRun exC3 lC3).1.cwPlaybackRate ≤ maxPlaybackRate) := by
  have hchain : SpeedChain exC3.lastDragTime lC3 := by
    refine ⟨by norm_num, by norm_num [angleDeadzoneRad, le_abs], ?_, trivial⟩
    norm_num [exC3, initialState, cwScrubEnterVel, max_def, abs_of_pos]
  exact ⟨⟨rfl, rfl, rfl, rfl, by norm_num [exC3, initialState],
      by norm_num [exC3, initialState, maxPlaybackRate], hchain⟩,
    c3_speed_accumulation exC3 lC3 rfl rfl rfl rfl
      (by norm_num [exC3, initialState])
      (by norm_num [exC3, initialState, maxPlaybackRate]) hchain⟩

/-- A chain of accepted clockwise samples whose velocities stay at or below
the scrub-exit threshold; velocities are computed against the previous
sample's time (`t0` for the first). -/
def BelowChain : ℚ → List (ℚ × ℚ × ℚ) → Prop
  | _, [] => True
  | t0, x :: rest =>
    0 < x.1 ∧ angleDeadzoneRad ≤ |x.1| ∧
    |x.1| / max 0.0001 ((x.2.2 - t0) / 1000) ≤ cwScrubExitVel ∧
    BelowChain x.2.2 rest

/-- The time of the last sample of a list (`t0` if the list is empty). -/
def lastTimeOf : ℚ → List (ℚ × ℚ × ℚ) → ℚ
  | t0, [] => t0
  | _, x :: rest => lastTimeOf x.2.2 rest

lemma cwSeekBody_scrub (s : DJState) (dDeg : ℚ) :
    (cwSeekBody s dDeg).1.isCWScrub = s.isCWScrub := by
  unfold cwSeekBody
  split_ifs <;> simp

lemma cwSeekBody_below (s : DJState) (dDeg : ℚ) :
    (cwSeekBody s dDeg).1.cwScrubBelowExitSince = s.cwScrubBelowExitSince := by
  unfold cwSeekBody
  split_ifs <;> simp

lemma cwSeekBody_drag (s : DJState) (dDeg : ℚ) :
    (cwSeekBody s dDeg).1.isDragging = s.isDragging := by
  unfold cwSeekBody
  split_ifs <;> simp

lemma cwSeekBody_src (s : DJState) (dDeg : ℚ) :
    (cwSeekBody s dDeg).1.audioSrc = s.audioSrc := by
  unfold cwSeekBody
  split_ifs <;> simp

/-- First below-velocity sample of a dip while the hold timer is unset:
the timer starts at `now` and scrub mode persists. -/
lemma scrub_step_start_dip (s : DJState) (d a now : ℚ)
    (hdrag : s.isDragging = true) (hsrc : s.audioSrc = true)
    (hpos : 0 < d) (hdz : angleDeadzoneRad ≤ |d|)
    (hscrub : s.isCWScrub = true) (hbel0 : s.cwScrubBelowExitSince = 0)
    (hv : |d| / max 0.0001 ((now - s.lastDragTime) / 1000) ≤ cwScrubExitVel) :
    (dragStep s d a now).1.isCWScrub = true ∧
    (dragStep s d a now).1.cwScrubBelowExitSince = now ∧
    (dragStep s d a now).1.lastDragTime = now ∧
    (dragStep s d a now).1.isDragging = true ∧
    (dragStep s d a now).1.audioSrc = true := by
  rw [dragStep_cw s d a now hdrag hsrc hpos hdz]
  unfold cwBranch cwScrubHysteresis
  refine ⟨?_, ?_, ?_, ?_, ?_⟩ <;>
    simp [stamp, hscrub, hbel0, hv, hdrag, hsrc, sub_self,
      eq_false (by norm_num [cwScrubExitHoldMs] : ¬cwScrubExitHoldMs ≤ (0:ℚ)),
      cwSeekBody_scrub, cwSeekBody_below, cwSeekBody_drag, cwSeekBody_src]

/-- A later below-velocity sample while the hold timer runs and the hold
duration has not yet elapsed: the timer keeps its start, scrub persists. -/
lemma scrub_step_below (s : DJState) (d a now t1 : ℚ)
    (hdrag : s.isDragging = true) (hsrc : s.audioSrc = true)
    (hpos : 0 < d) (hdz : angleDeadzoneRad ≤ |d|)
    (hscrub : s.isCWScrub = true) (hbel : s.cwScrubBelowExitSince = t1)
    (ht1ne : ¬t1 = 0)
    (hv : |d| / max 0.0001 ((now - s.lastDragTime) / 1000) ≤ cwScrubExitVel)
    (hh : now - t1 < cwScrubExitHoldMs) :
    (dragStep s d a now).1.isCWScrub = true ∧
    (dragStep s d a now).1.cwScrubBelowExitSince = t1 ∧
    (dragStep s d a now).1.lastDragTime = now ∧
    (dragStep s d a now).1.isDragging = true ∧
    (dragStep s d a now).1.audioSrc = true := by
  rw [dragStep_cw s d a now hdrag hsrc hpos hdz]
  unfold cwBranch cwScrubHysteresis
  refine ⟨?_, ?_, ?_, ?_, ?_⟩ <;>
    simp [stamp, hscrub, hbel, ht1ne, hv, not_le.mpr hh, hdrag, hsrc,
      cwSeekBody_scrub, cwSeekBody_below, cwSeekBody_drag, cwSeekBody_src]

/-- A below-velocity sample after the hold duration has elapsed: scrub mode
is exited and the timer cleared. -/
lemma scrub_step_exit (s : DJState) (d a now t1 : ℚ)
    (hdrag : s.isDragging = true) (hsrc : s.audioSrc = true)
    (hpos : 0 < d) (hdz : angleDeadzoneRad ≤ |d|)
    (hscrub : s.isCWScrub = true) (hbel : s.cwScrubBelowExitSince = t1)
    (ht1ne : ¬t1 = 0)
    (hv : |d| / max 0.0001 ((now - s.lastDragTime) / 1000) ≤ cwScrubExitVel)
    (hh : cwScrubExitHoldMs ≤ now - t1) :
    (dragStep s d a now).1.isCWScrub = false ∧
    (dragStep s d a now).1.cwScrubBelowExitSince = 0 ∧
    (dragStep s d a now).1.lastDragTime = now ∧
    (dragStep s d a now).1.isDragging = true ∧
    (dragStep s d a now).1.audioSrc = true := by
  rw [dragStep_cw s d a now hdrag hsrc hpos hdz]
  unfold cwBranch cwScrubHysteresis
  refine ⟨?_, ?_, ?_, ?_, ?_⟩ <;>
    simp [stamp, cwSpeedBody, hscrub, hbel, ht1ne, hv, hh, hdrag, hsrc]

/-- A sample above the exit velocity while in scrub mode: the hold timer is
reset to unset and scrub mode persists. -/
lemma scrub_step_fast (s : DJState) (d a now : ℚ)
    (hdrag : s.isDragging = true) (hsrc : s.audioSrc = true)
    (hpos : 0 < d) (hdz : angleDeadzoneRad ≤ |d|)
    (hscrub : s.isCWScrub = true)
    (hv : cwScrubExitVel < |d| / max 0.0001 ((now - s.lastDragTime) / 1000)) :
    (dragStep s d a now).1.isCWScrub = true ∧
    (dragStep s d a now).1.cwScrubBelowExitSince = 0 ∧
    (dragStep s d a now).1.lastDragTime = now ∧
    (dragStep s d a now).1.isDragging = true ∧
    (dragStep s d a now).1.audioSrc = true := by
  rw [dragStep_cw s d a now hdrag hsrc hpos hdz]
  unfold cwBranch cwScrubHysteresis
  refine ⟨?_, ?_, ?_, ?_, ?_⟩ <;>
    simp [stamp, hscrub, not_le.mpr hv, hdrag, hsrc,
      cwSeekBody_scrub, cwSeekBody_below, cwSeekBody_drag, cwSeekBody_src]

/-- Running a concatenation of sample lists: the final state composes. -/
lemma dragRun_state_append (s : DJState) (l1 l2 : List (ℚ × ℚ × ℚ)) :
    (dragRun s (l1 ++ l2)).1 = (dragRun (dragRun s l1).1 l2).1 := by
  induction l1 generalizing s with
  | nil => rfl
  | cons x rest ih => exact ih (dragStep s x.1 x.2.1 x.2.2).1

/-- A dip (samples at or below the exit velocity) whose samples all fall
inside the hold window keeps scrub mode and the timer start `t1`. -/
lemma scrub_below_run (l : List (ℚ × ℚ × ℚ)) (s : DJState) (t1 : ℚ)
    (hdrag : s.isDragging = true) (hsrc : s.audioSrc = true)
    (hscrub : s.isCWScrub = true) (hbel : s.cwScrubBelowExitSince = t1)
    (ht1 : 0 < t1)
    (hchain : BelowChain s.lastDragTime l)
    (htimes : ∀ y ∈ l, y.2.2 - t1 < cwScrubExitHoldMs) :
    (dragRun s l).1.isCWScrub = true ∧
    (dragRun s l).1.cwScrubBelowExitSince = t1 ∧
    (dragRun s l).1.lastDragTime = lastTimeOf s.lastDragTime l ∧
    (dragRun s l).1.isDragging = true ∧
    (dragRun s l).1.audioSrc = true := by
  induction l generalizing s with
  | nil => exact ⟨hscrub, hbel, rfl, hdrag, hsrc⟩
  | cons x rest ih =>
    obtain ⟨hxpos, hxdz, hxvel, hchain2⟩ := hchain
    obtain ⟨h1, h2, h3, h4, h5⟩ :=
      scrub_step_below s x.1 x.2.1 x.2.2 t1 hdrag hsrc hxpos hxdz hscrub hbel
        (ne_of_gt ht1) hxvel (htimes x (List.mem_cons_self x rest))
    obtain ⟨ih1, ih2, ih3, ih4, ih5⟩ :=
      ih (dragStep s x.1 x.2.1 x.2.2).1 h4 h5 h1 h2 (by rw [h3]; exact hchain2)
        (fun y hy => htimes y (List.mem_cons_of_mem x hy))
    refine ⟨ih1, ih2, ?_, ih4, ih5⟩
    show (dragRun (dragStep s x.1 x.2.1 x.2.2).1 rest).1.lastDragTime =
      lastTimeOf x.2.2 rest
    rw [ih3, h3]

/-- Once a dip has started at `t1`, a below-exit-velocity chain containing
a sample at or past `t1 + 300 ms` ends outside scrub mode; a session that
has already exited stays exited at these velocities. -/
lemma scrub_exit_run (l : List (ℚ × ℚ × ℚ)) (s : DJState) (t1 : ℚ)
    (hdrag : s.isDragging = true) (hsrc : s.audioSrc = true)
    (ht1 : 0 < t1)
    (hchain : BelowChain s.lastDragTime l)
    (hstate : s.isCWScrub = false ∨
      (s.isCWScrub = true ∧ s.cwScrubBelowExitSince = t1 ∧
        ∃ y ∈ l, cwScrubExitHoldMs ≤ y.2.2 - t1)) :
    (dragRun s l).1.isCWScrub = false := by
  induction l generalizing s with
  | nil =>
    rcases hstate with h | ⟨-, -, y, hy, -⟩
    · exact h
    · exact absurd hy (List.not_mem_nil y)
  | cons x rest ih =>
    obtain ⟨hxpos, hxdz, hxvel, hchain2⟩ := hchain
    rcases hstate with hns | ⟨hscrub, hbel, y, hy, hy300⟩
    · have hv22 : |x.1| / max 0.0001 ((x.2.2 - s.lastDragTime) / 1000) <
          cwScrubEnterVel :=
        lt_of_le_of_lt hxvel (by norm_num [cwScrubExitVel, cwScrubEnterVel])
      obtain ⟨-, -, h3, h4, h5, h6, -⟩ :=
        cw_speed_step s x.1 x.2.1 x.2.2 hdrag hsrc hxpos hxdz hns hv22
      exact ih (dragStep s x.1 x.2.1 x.2.2).1 h5 h6 (by rw [h4]; exact hchain2)
        (Or.inl h3)
    · by_cases hx3 : cwScrubExitHoldMs ≤ x.2.2 - t1
      · obtain ⟨h1, -, h3, h4, h5⟩ :=
          scrub_step_exit s x.1 x.2.1 x.2.2 t1 hdrag hsrc hxpos hxdz hscrub hbel
            (ne_of_gt ht1) hxvel hx3
        exact ih (dragStep s x.1 x.2.1 x.2.2).1 h4 h5 (by rw [h3]; exact hchain2)
          (Or.inl h1)
      · obtain ⟨h1, h2, h3, h4, h5⟩ :=
          scrub_step_below s x.1 x.2.1 x.2.2 t1 hdrag hsrc hxpos hxdz hscrub hbel
            (ne_of_gt ht1) hxvel (not_le.mp hx3)
        have hymem : y ∈ rest := by
          rcases List.mem_cons.mp hy with rfl | hmem
          · exact absurd hy300 hx3
          · exact hmem
        exact ih (dragStep s x.1 x.2.1 x.2.2).1 h4 h5 (by rw [h3]; exact hchain2)
          (Or.inr ⟨h1, h2, y, hymem, hy300⟩)

/-- C2: scrub-exit hold hysteresis.  Starting in scrub mode with the hold
timer unset, (i) a dip of below-exit-velocity samples that all arrive
within 300 ms of the dip start, followed by a sample above the exit
velocity, keeps scrub mode and resets the hold timer; (ii) a chain of
below-exit-velocity samples containing one at least 300 ms after the dip
start exits scrub mode. -/
theorem c2_scrub_exit_hold :
    (∀ (s : DJState) (x f : ℚ × ℚ × ℚ) (rest : List (ℚ × ℚ × ℚ)),
      s.isDragging = true → s.audioSrc = true → s.isCWScrub = true →
      s.cwScrubBelowExitSince = 0 → 0 < x.2.2 →
      BelowChain s.lastDragTime (x :: rest) →
      (∀ y ∈ x :: rest, y.2.2 - x.2.2 < cwScrubExitHoldMs) →
      0 < f.1 → angleDeadzoneRad ≤ |f.1| →
      cwScrubExitVel < |f.1| / max 0.0001 ((f.2.2 - lastTimeOf x.2.2 rest) / 1000) →
      (dragRun s (x :: (rest ++ [f]))).1.isCWScrub = true ∧
      (dragRun s (x :: (rest ++ [f]))).1.cwScrubBelowExitSince = 0) ∧
    (∀ (s : DJState) (x : ℚ × ℚ × ℚ) (rest : List (ℚ × ℚ × ℚ)),
      s.isDragging = true → s.audioSrc = true → s.isCWScrub = true →
      s.cwScrubBelowExitSince = 0 → 0 < x.2.2 →
      BelowChain s.lastDragTime (x :: rest) →
      (∃ y ∈ rest, cwScrubExitHoldMs ≤ y.2.2 - x.2.2) →
      (dragRun s (x :: rest)).1.isCWScrub = false) := by
  constructor
  · intro s x f rest hdrag hsrc hscrub hbel0 ht1 hchain htimes hfpos hfdz hfv
    obtain ⟨hxpos, hxdz, hxvel, hchain2⟩ := hchain
    obtain ⟨h1, h2, h3, h4, h5⟩ :=
      scrub_step_start_dip s x.1 x.2.1 x.2.2 hdrag hsrc hxpos hxdz hscrub hbel0 hxvel
    obtain ⟨m1, m2, m3, m4, m5⟩ :=
      scrub_below_run rest (dragStep s x.1 x.2.1 x.2.2).1 x.2.2 h4 h5 h1 h2 ht1
        (by rw [h3]; exact hchain2)
        (fun y hy => htimes y (List.mem_cons_of_mem x hy))
    have hdec : (dragRun s (x :: (rest ++ [f]))).1 =
        (dragStep (dragRun (dragStep s x.1 x.2.1 x.2.2).1 rest).1
          f.1 f.2.1 f.2.2).1 := by
      show (dragRun (dragStep s x.1 x.2.1 x.2.2).1 (rest ++ [f])).1 = _
      rw [dragRun_state_append]
      rfl
    obtain ⟨f1, f2, -, -, -⟩ :=
      scrub_step_fast (dragRun (dragStep s x.1 x.2.1 x.2.2).1 rest).1
        f.1 f.2.1 f.2.2 m4 m5 hfpos hfdz m1
        (by rw [m3, h3]; exact hfv)
    constructor
    · rw [hdec]
      exact f1
    · rw [hdec]
      exact f2
  · intro s x rest hdrag hsrc hscrub hbel0 ht1 hchain hex
    obtain ⟨hxpos, hxdz, hxvel, hchain2⟩ := hchain
    obtain ⟨h1, h2, h3, h4, h5⟩ :=
      scrub_step_start_dip s x.1 x.2.1 x.2.2 hdrag hsrc hxpos hxdz hscrub hbel0 hxvel
    show (dragRun (dragStep s x.1 x.2.1 x.2.2).1 rest).1.isCWScrub = false
    exact scrub_exit_run rest (dragStep s x.1 x.2.1 x.2.2).1 x.2.2 h4 h5 ht1
      (by rw [h3]; exact hchain2) (Or.inr ⟨h1, h2, hex⟩)

/-- A scrub-mode drag with the exit hold timer unset, for C2. -/
def exC2 : DJState :=
  { initialState with
      isDragging := true, audioSrc := true, isCWScrub := true,
      cwScrubBelowExitSince := 0, lastDragTime := 900 }

/-- C2 witness: a one-sample dip at 10 rad/s followed after 100 ms by a
20 rad/s sample keeps scrub mode and clears the timer; a dip whose second
below-velocity sample arrives 300 ms after the first exits scrub mode. -/
theorem c2_scrub_exit_hold_witness :
    (exC2.isDragging = true ∧ exC2.audioSrc = true ∧ exC2.isCWScrub = true ∧
     exC2.cwScrubBelowExitSince = 0 ∧
     BelowChain exC2.lastDragTime [((1:ℚ), (0:ℚ), (1000:ℚ))] ∧
     BelowChain exC2.lastDragTime [((1:ℚ), (0:ℚ), (1000:ℚ)), ((1:ℚ), (0:ℚ), (1300:ℚ))] ∧
     cwScrubExitVel <
       |(2:ℚ)| / max 0.0001 (((1100:ℚ) - lastTimeOf 1000 []) / 1000) ∧
     cwScrubExitHoldMs ≤ (1300:ℚ) - 1000) ∧
    ((dragRun exC2 [((1:ℚ), (0:ℚ), (1000:ℚ)), ((2:ℚ), (0:ℚ), (1100:ℚ))]).1.isCWScrub = true ∧
     (dragRun exC2
       [((1:ℚ), (0:ℚ), (1000:ℚ)), ((2:ℚ), (0:ℚ), (1100:ℚ))]).1.cwScrubBelowExitSince = 0) ∧
    (dragRun exC2 [((1:ℚ), (0:ℚ), (1000:ℚ)), ((1:ℚ), (0:ℚ), (1300:ℚ))]).1.isCWScrub = false := by
  have hchainA : BelowChain exC2.lastDragTime [((1:ℚ), (0:ℚ), (1000:ℚ))] := by
    refine ⟨by norm_num, by norm_num [angleDeadzoneRad, le_abs], ?_, trivial⟩
    norm_num [exC2, initialState, cwScrubExitVel, max_def, abs_of_pos]
  have hchainB : BelowChain exC2.lastDragTime
      [((1:ℚ), (0:ℚ), (1000:ℚ)), ((1:ℚ), (0:ℚ), (1300:ℚ))] := by
    refine ⟨by norm_num, by norm_num [angleDeadzoneRad, le_abs], ?_,
      by norm_num, by norm_num [angleDeadzoneRad, le_abs], ?_, trivial⟩
    · norm_num [exC2, initialState, cwScrubExitVel, max_def, abs_of_pos]
    · norm_num [cwScrubExitVel, max_def, abs_of_pos]
  have hfv : cwScrubExitVel <
      |(2:ℚ)| / max 0.0001 (((1100:ℚ) - lastTimeOf 1000 []) / 1000) := by
    norm_num [cwScrubExitVel, lastTimeOf, max_def, abs_of_pos]
  have hA := c2_scrub_exit_hold.1 exC2 (1, 0, 1000) (2, 0, 1100) []
    rfl rfl rfl rfl (by norm_num) hchainA
    (by
      intro y hy
      simp only [List.mem_cons, List.not_mem_nil, or_false] at hy
      subst hy
      norm_num [cwScrubExitHoldMs])
    (by norm_num) (by norm_num [angleDeadzoneRad, le_abs]) hfv
  have hB := c2_scrub_exit_hold.2 exC2 (1, 0, 1000) [((1:ℚ), (0:ℚ), (1300:ℚ))]
    rfl rfl rfl rfl (by norm_num) hchainB
    ⟨(1, 0, 1300), List.mem_cons_self _ _, by norm_num [cwScrubExitHoldMs]⟩
  exact ⟨⟨rfl, rfl, rfl, rfl, hchainA, hchainB, hfv,
      by norm_num [cwScrubExitHoldMs]⟩, hA, hB⟩

end AudiobookDJ
